import Mathlib

/-!
Verification of the tic-tac-toe game core (`src/game.rs`) of the
`tic-tac-toe-iced` repository.

The board is a fixed 3x3 grid of `Entity` cells; `Game` couples a board
with a `GameState`.  `Game.update` embeds `Game::update` (the move
application with win/draw detection), `Computer.minimax` and
`Computer.best_play` embed the adversarial search engine with alpha-beta
pruning.  Machine integers (`i32`) are embedded as `Int` with the explicit
sentinel constants `intMin = -2^31` and `intMax = 2^31 - 1`.  The
recursion of `minimax` is embedded with an explicit fuel parameter; every
top-level call uses fuel 9, which dominates the number of empty cells of
any 3x3 board, so the fuel-exhaustion branch is never reached on the
boards the engine is actually called on.
-/

/-- Cell occupancy, `Entity` in `game.rs`: Empty, Computer ("X"), Human ("O"). -/
inductive Entity where
  | Empty
  | Computer
  | Human
deriving DecidableEq, Fintype

/-- `impl Not for Entity`: swaps the two players and fixes `Empty`. -/
def Entity.not : Entity → Entity
  | .Empty => .Empty
  | .Computer => .Human
  | .Human => .Computer

/-- A row of the board: `[Entity; 3]`. -/
def Row : Type := Entity × Entity × Entity

instance : DecidableEq Row := by unfold Row; infer_instance

/-- The board: `[[Entity; 3]; 3]`, row-major. -/
def Board : Type := Row × Row × Row

instance : DecidableEq Board := by unfold Board; infer_instance

/-- Read one cell of a row. -/
def rowGet (r : Row) (j : Fin 3) : Entity :=
  match j with
  | ⟨0, _⟩ => r.1
  | ⟨1, _⟩ => r.2.1
  | ⟨2, _⟩ => r.2.2

/-- Write one cell of a row. -/
def rowSet (r : Row) (j : Fin 3) (e : Entity) : Row :=
  match j with
  | ⟨0, _⟩ => (e, r.2.1, r.2.2)
  | ⟨1, _⟩ => (r.1, e, r.2.2)
  | ⟨2, _⟩ => (r.1, r.2.1, e)

/-- `board[x][y]`: read the cell at row `x`, column `y`. -/
def getCell (b : Board) (x y : Fin 3) : Entity :=
  match x with
  | ⟨0, _⟩ => rowGet b.1 y
  | ⟨1, _⟩ => rowGet b.2.1 y
  | ⟨2, _⟩ => rowGet b.2.2 y

/-- `board[x][y] = e`: write the cell at row `x`, column `y`. -/
def setCell (b : Board) (x y : Fin 3) (e : Entity) : Board :=
  match x with
  | ⟨0, _⟩ => (rowSet b.1 y e, b.2.1, b.2.2)
  | ⟨1, _⟩ => (b.1, rowSet b.2.1 y e, b.2.2)
  | ⟨2, _⟩ => (b.1, b.2.1, rowSet b.2.2 y e)

/-- The all-`Empty` board, `Board::default()`. -/
def emptyBoard : Board :=
  ((.Empty, .Empty, .Empty), (.Empty, .Empty, .Empty), (.Empty, .Empty, .Empty))

/-- `GameState` in `game.rs`. -/
inductive GameState where
  | Ready
  | Playing (e : Entity)
  | Repeat (e : Entity)
  | Win (e : Entity)
  | Draw
deriving DecidableEq

/-- `Game`: a board plus the current game state. -/
structure Game where
  board : Board
  state : GameState
deriving DecidableEq

/-- `Game::default()`: empty board in the `Ready` state. -/
def Game.default : Game := ⟨emptyBoard, .Ready⟩

/-- `Game::reset`: returns a fresh default session. -/
def Game.reset (_ : Game) : Game := Game.default

/-- `Game::start`: sets the state to `Playing(Entity::Human)`. -/
def Game.start (g : Game) : Game := ⟨g.board, .Playing .Human⟩

/-- The anti-diagonal column index `2 - i` of `game.rs` (on `usize`, no wrap). -/
def revIdx (i : Fin 3) : Fin 3 := ⟨2 - i.val, by omega⟩

/-- `Game::is_winner(entity, x, y)`: checks row `x`, column `y`, and the
diagonals through `(x, y)` on the current board. -/
def Game.is_winner (b : Board) (entity : Entity) (x y : Fin 3) : Bool :=
  if ((List.finRange 3).all fun i => decide (getCell b x i = entity))
      || ((List.finRange 3).all fun i => decide (getCell b i y = entity)) then
    true
  else if x = y && ((List.finRange 3).all fun i => decide (getCell b i i = entity)) then
    true
  else if x.val + y.val = 2
      && ((List.finRange 3).all fun i => decide (getCell b i (revIdx i) = entity)) then
    true
  else
    false

/-- `self.board.iter().flatten().all(|e| *e != Entity::Empty)`: full board test. -/
def boardFull (b : Board) : Bool :=
  (List.finRange 3).all fun i =>
    (List.finRange 3).all fun j => decide (getCell b i j ≠ Entity.Empty)

/-- The shared body of `Game::update` once the active entity is extracted
from `Playing(s) | Repeat(s)`. -/
def Game.applyMove (g : Game) (s : Entity) (x y : Fin 3) : Game :=
  if getCell g.board x y = Entity.Empty then
    let b := setCell g.board x y s
    if Game.is_winner b s x y then ⟨b, .Win s⟩
    else if boardFull b then ⟨b, .Draw⟩
    else ⟨b, .Playing s.not⟩
  else
    ⟨g.board, .Repeat s⟩

/-- `Game::update(x, y)`: apply a move attempt at `(x, y)`; a no-op unless
the state is `Playing(s)` or `Repeat(s)`. -/
def Game.update (g : Game) (x y : Fin 3) : Game :=
  match g.state with
  | .Playing s => Game.applyMove g s x y
  | .Repeat s => Game.applyMove g s x y
  | _ => g

/-- `Computer::is_winner(entity, board)`: any of the 3 rows, 3 columns or
2 diagonals is uniformly `entity`. -/
def cIsWinner (entity : Entity) (b : Board) : Bool :=
  ((List.finRange 3).any fun i =>
      ((List.finRange 3).all fun j => decide (getCell b i j = entity))
        || ((List.finRange 3).all fun j => decide (getCell b j i = entity)))
    || ((List.finRange 3).all fun i => decide (getCell b i i = entity))
    || ((List.finRange 3).all fun i => decide (getCell b i (revIdx i) = entity))

/-- `Computer::evaluate`: +1 for a Computer line, -1 for a Human line, 0 otherwise. -/
def evaluate (b : Board) : Int :=
  if cIsWinner .Computer b then 1
  else if cIsWinner .Human b then -1
  else 0

/-- `Computer::set_move`. -/
def setMove (b : Board) (entity : Entity) (x y : Fin 3) : Board :=
  setCell b x y entity

/-- `Computer::undo_move`. -/
def undoMove (b : Board) (x y : Fin 3) : Board :=
  setCell b x y .Empty

/-- `Computer::actions`: the empty cells in row-major enumeration order. -/
def actions (b : Board) : List (Fin 3 × Fin 3) :=
  (List.finRange 3).flatMap fun i =>
    (List.finRange 3).flatMap fun j =>
      if getCell b i j = Entity.Empty then [(i, j)] else []

/-- `i32::MIN`. -/
def intMin : Int := -2147483648

/-- `i32::MAX`. -/
def intMax : Int := 2147483647

/-- The loop body of `Computer::minimax` over the pending action list.
`mm` is the recursive `minimax` call at the next fuel level; the board is
threaded explicitly to embed the in-place `set_move` / `undo_move`
mutation discipline.  Returns `((score, depth), board)`. -/
def minimaxLoop (mm : Board → Entity → Int → Int → Int → (Int × Int) × Board)
    (player : Entity) :
    List (Fin 3 × Fin 3) → Board → Int → Int → Int → Int → (Int × Int) × Board
  | [], b, m, _alpha, _beta, depth => ((m, depth), b)
  | (r, c) :: rest, b, m, alpha, beta, depth =>
    let func : Int → Int → Int :=
      if player = Entity.Computer then fun a b => max a b else fun a b => min a b
    let b1 := setMove b player r c
    let res := mm b1 player.not alpha beta (depth + 1)
    let value := res.1.1
    let depth1 := res.1.2
    let m1 := func m value
    let b2 := undoMove res.2 r c
    let alpha1 := if player = Entity.Computer then func alpha m1 else alpha
    let beta1 := if player = Entity.Computer then beta else func beta m1
    if beta1 ≤ alpha1 then ((m1, depth1), b2)
    else minimaxLoop mm player rest b2 m1 alpha1 beta1 depth1

/-- `Computer::minimax(board, player, alpha, beta, depth)` with explicit
fuel; returns `((score, depth), board)` with the board threaded through to
capture the mutation discipline.  On fuel exhaustion (never reached when
the fuel dominates the number of empty cells) it scores the board like a
terminal node. -/
def minimax : Nat → Board → Entity → Int → Int → Int → (Int × Int) × Board
  | fuel, b, player, alpha, beta, depth =>
    if cIsWinner player b || cIsWinner player.not b || boardFull b then
      ((evaluate b, depth), b)
    else
      match fuel with
      | 0 => ((evaluate b, depth), b)
      | fuel' + 1 =>
        let m0 : Int := if player = Entity.Computer then intMin else intMax
        minimaxLoop (fun b p a bt d => minimax fuel' b p a bt d) player
          (actions b) b m0 alpha beta depth

/-- The loop of `Computer::best_play`: fold over the action list keeping
the first strictly-improving move; the board is threaded to embed the
place / search / undo sequence of each iteration. -/
def bestPlayLoop :
    List (Fin 3 × Fin 3) → Board → Int → (Fin 3 × Fin 3) → (Fin 3 × Fin 3) × Board
  | [], b, _bestScore, best => (best, b)
  | (r, c) :: rest, b, bestScore, best =>
    if getCell b r c = Entity.Empty then
      let b1 := setMove b .Computer r c
      let res := minimax 9 b1 .Human intMin intMax 0
      let score := res.1.1
      let b2 := undoMove res.2 r c
      if bestScore < score then bestPlayLoop rest b2 score (r, c)
      else bestPlayLoop rest b2 bestScore best
    else
      bestPlayLoop rest b bestScore best

/-- `Computer::best_play(board)`: the move kept by the strict-improvement
fold over `actions(board)`, starting from score `i32::MIN` and move `(0, 0)`. -/
def best_play (b : Board) : Fin 3 × Fin 3 :=
  (bestPlayLoop (actions b) b intMin (0, 0)).1

/-- The exhaustive check behind the no-loss property: from a game state, the
automated player always plays `best_play` on the current board, the human may
reply with any empty cell, and the game must end in `Win Computer` or `Draw`.
A human reply on an occupied cell only moves the state from `Playing` to
`Repeat` with the same board, and `Game.update` treats `Playing s` and
`Repeat s` identically, so ranging over the empty cells covers every
sequence of human replies that ever completes the game.  The fuel bounds
the number of accepted moves; 10 covers any play of the 3x3 board. -/
def neverLoses : Nat → Game → Bool
  | 0, _ => false
  | fuel + 1, g =>
    match g.state with
    | .Win .Computer => true
    | .Win _ => false
    | .Draw => true
    | .Ready => false
    | .Playing p =>
      if p = Entity.Computer then
        neverLoses fuel (g.update (best_play g.board).1 (best_play g.board).2)
      else
        (actions g.board).all fun rc => neverLoses fuel (g.update rc.1 rc.2)
    | .Repeat p =>
      if p = Entity.Computer then
        neverLoses fuel (g.update (best_play g.board).1 (best_play g.board).2)
      else
        (actions g.board).all fun rc => neverLoses fuel (g.update rc.1 rc.2)

/-! ## Specification-side notions

These definitions follow the wording of the specification (completed lines,
row-major cell enumeration) and are used to state the claims; they are
deliberately independent of the loop structure of the code. -/

/-- The eight winning lines of the 3x3 board, as cell triples. -/
def lines : List (List (Fin 3 × Fin 3)) :=
  [[(0, 0), (0, 1), (0, 2)],
   [(1, 0), (1, 1), (1, 2)],
   [(2, 0), (2, 1), (2, 2)],
   [(0, 0), (1, 0), (2, 0)],
   [(0, 1), (1, 1), (2, 1)],
   [(0, 2), (1, 2), (2, 2)],
   [(0, 0), (1, 1), (2, 2)],
   [(0, 2), (1, 1), (2, 0)]]

/-- The board contains a completed line consisting entirely of cells of `e`. -/
def hasLine (b : Board) (e : Entity) : Prop :=
  ∃ L ∈ lines, ∀ q ∈ L, getCell b q.1 q.2 = e

instance (b : Board) (e : Entity) : Decidable (hasLine b e) := by
  unfold hasLine; infer_instance

/-- The placement at `(x, y)` completed a line for `e`: some line through
`(x, y)` consists entirely of cells of `e` on the (post-placement) board. -/
def lineThroughAt (b : Board) (e : Entity) (x y : Fin 3) : Prop :=
  ∃ L ∈ lines, (x, y) ∈ L ∧ ∀ q ∈ L, getCell b q.1 q.2 = e

instance (b : Board) (e : Entity) (x y : Fin 3) : Decidable (lineThroughAt b e x y) := by
  unfold lineThroughAt; infer_instance

/-- All nine cells in row-major enumeration order. -/
def allCells : List (Fin 3 × Fin 3) :=
  [(0, 0), (0, 1), (0, 2), (1, 0), (1, 1), (1, 2), (2, 0), (2, 1), (2, 2)]

/-- The sessions reachable from a fresh session by `start`, `update`
(with in-range coordinates) and `reset` calls. -/
inductive Reachable : Game → Prop where
  | init : Reachable Game.default
  | step_start {g} : Reachable g → Reachable g.start
  | step_update {g} (x y : Fin 3) : Reachable g → Reachable (g.update x y)
  | step_reset {g} : Reachable g → Reachable g.reset

/-! ## Packed evaluation layer

The kernel evaluates large concrete searches (the full no-loss check
explores about 78000 minimax nodes) far too slowly on the structured
representation, so the same algorithms are restated over a packed
representation: a board is a natural number with nine base-4 digits in
row-major order (digit `3 * x + y` is cell `(x, y)`; 0 = Empty,
1 = Computer, 2 = Human), a cell is addressed by its weight `4 ^ (3x + y)`,
and the five score values `i32::MIN < -1 < 0 < 1 < i32::MAX` that the
search can ever manipulate are order-isomorphically coded as
`0 < 1 < 2 < 3 < 4`.  Every definition below is proved equal (along the
coding) to its structured counterpart, and only those equalities are used
in the claim proofs. -/

/-- Force a natural number to a literal before continuing: keeps kernel
evaluation of the packed search linear by avoiding thunk chains. -/
def seqNat (n : Nat) (k : Nat → α) : α :=
  match n with
  | 0 => k 0
  | m + 1 => k (m + 1)

/-- The nine cell weights `4 ^ (3x + y)` in row-major order. -/
def fPows : List Nat := [1, 4, 16, 64, 256, 1024, 4096, 16384, 65536]

/-- Packed `Computer::is_winner`: the eight lines, unrolled. -/
def fIsWin (e b : Nat) : Bool :=
  b / 1 % 4 == e && b / 4 % 4 == e && b / 16 % 4 == e
  || b / 64 % 4 == e && b / 256 % 4 == e && b / 1024 % 4 == e
  || b / 4096 % 4 == e && b / 16384 % 4 == e && b / 65536 % 4 == e
  || b / 1 % 4 == e && b / 64 % 4 == e && b / 4096 % 4 == e
  || b / 4 % 4 == e && b / 256 % 4 == e && b / 16384 % 4 == e
  || b / 16 % 4 == e && b / 1024 % 4 == e && b / 65536 % 4 == e
  || b / 1 % 4 == e && b / 256 % 4 == e && b / 65536 % 4 == e
  || b / 16 % 4 == e && b / 256 % 4 == e && b / 4096 % 4 == e

/-- Packed full-board test, unrolled. -/
def fFull (b : Nat) : Bool :=
  b / 1 % 4 != 0 && b / 4 % 4 != 0 && b / 16 % 4 != 0
  && b / 64 % 4 != 0 && b / 256 % 4 != 0 && b / 1024 % 4 != 0
  && b / 4096 % 4 != 0 && b / 16384 % 4 != 0 && b / 65536 % 4 != 0

/-- Packed maximizing loop of `minimax` (Computer to move): walks the cell
weights, skipping occupied cells, with the alpha-beta break of the source.
`beta` is loop-constant for the maximizer. -/
def lMax (rec : Nat → Nat → Nat → Nat → Nat → Nat × Nat) (b : Nat) :
    List Nat → Nat → Nat → Nat → Nat → Nat × Nat :=
  List.rec (motive := fun _ => Nat → Nat → Nat → Nat → Nat × Nat)
    (fun m _alpha _beta depth => (m, depth))
    (fun k _rest restF m alpha beta depth =>
      if b / k % 4 == 0 then
        seqNat (b + k) fun b1 =>
        match rec b1 2 alpha beta (depth + 1) with
        | (value, mDepth) =>
          seqNat (max m value) fun m1 =>
          seqNat (max alpha m1) fun alpha1 =>
          seqNat mDepth fun mD =>
          if beta ≤ alpha1 then (m1, mD)
          else restF m1 alpha1 beta mD
      else restF m alpha beta depth)

/-- Packed minimizing loop of `minimax` (Human to move); `alpha` is
loop-constant for the minimizer. -/
def lMin (rec : Nat → Nat → Nat → Nat → Nat → Nat × Nat) (b : Nat) :
    List Nat → Nat → Nat → Nat → Nat → Nat × Nat :=
  List.rec (motive := fun _ => Nat → Nat → Nat → Nat → Nat × Nat)
    (fun m _alpha _beta depth => (m, depth))
    (fun k _rest restF m alpha beta depth =>
      if b / k % 4 == 0 then
        seqNat (b + 2 * k) fun b1 =>
        match rec b1 1 alpha beta (depth + 1) with
        | (value, mDepth) =>
          seqNat (min m value) fun m1 =>
          seqNat (min beta m1) fun beta1 =>
          seqNat mDepth fun mD =>
          if beta1 ≤ alpha then (m1, mD)
          else restF m1 alpha beta1 mD
      else restF m alpha beta depth)

/-- Packed `Computer::minimax` over coded scores.  Players are coded
1 = Computer, 2 = Human; scores 0..4 code `MIN, -1, 0, +1, MAX`. -/
def fMinimax : Nat → Nat → Nat → Nat → Nat → Nat → Nat × Nat :=
  Nat.rec
    (motive := fun _ => Nat → Nat → Nat → Nat → Nat → Nat × Nat)
    (fun b _p _alpha _beta d =>
      (if fIsWin 1 b then 3 else if fIsWin 2 b then 1 else 2, d))
    (fun _fuel rec b p alpha beta d =>
      if fIsWin 1 b then (3, d)
      else if fIsWin 2 b then (1, d)
      else if fFull b then (2, d)
      else if p = 1 then lMax rec b fPows 0 alpha beta d
      else lMin rec b fPows 4 alpha beta d)

/-- The loop of the packed `Computer::best_play` over a list of cell
weights, skipping occupied cells. -/
def fBestPlayLoop (b : Nat) : List Nat → Nat → Nat → Nat :=
  List.rec (motive := fun _ => Nat → Nat → Nat)
    (fun _bestScore best => best)
    (fun k _rest restF bestScore best =>
      if b / k % 4 == 0 then
        match fMinimax 9 (b + k) 2 0 4 0 with
        | (score, _) =>
          seqNat score fun s =>
          if bestScore < s then restF s k else restF bestScore best
      else restF bestScore best)

/-- Packed `Computer::best_play`: returns the weight of the chosen cell. -/
def fBestPlay (b : Nat) : Nat :=
  fBestPlayLoop b fPows 0 1

/-- The eight lines as weight triples, in the order of `lines`. -/
def fLinesM : List (Nat × Nat × Nat) :=
  [(1, 4, 16), (64, 256, 1024), (4096, 16384, 65536),
   (1, 64, 4096), (4, 256, 16384), (16, 1024, 65536),
   (1, 256, 65536), (16, 256, 4096)]

/-- Packed `Game::is_winner` at the just-played cell of weight `k`:
some line containing `k` is uniformly `p`. -/
def fWinAt (p b k : Nat) : Bool :=
  fLinesM.any fun t =>
    (t.1 == k || t.2.1 == k || t.2.2 == k)
      && b / t.1 % 4 == p && b / t.2.1 % 4 == p && b / t.2.2 % 4 == p

/-- Packed player complement. -/
def fNot (p : Nat) : Nat := if p = 1 then 2 else if p = 2 then 1 else 0

/-- Packed `Game::update`.  Game states are coded as 0 = Ready,
`10 + p` = Playing, `20 + p` = Repeat, `30 + p` = Win, 40 = Draw. -/
def fUpdate (b s k : Nat) : Nat × Nat :=
  if 10 ≤ s && s < 30 then
    seqNat (s % 10) fun p =>
    if b / k % 4 == 0 then
      seqNat (b + p * k) fun b1 =>
      if fWinAt p b1 k then (b1, 30 + p)
      else if fFull b1 then (b1, 40)
      else (b1, 10 + fNot p)
    else (b, 20 + p)
  else (b, s)

/-- Packed form of `neverLoses`. -/
def fNeverLoses : Nat → Nat → Nat → Bool
  | 0, _, _ => false
  | fuel + 1, b, s =>
    if s == 31 then true
    else if s == 40 then true
    else if s == 30 || s == 32 || s == 0 then false
    else
      if s % 10 == 1 then
        seqNat (fBestPlay b) fun k =>
        match fUpdate b s k with
        | (b1, s1) => seqNat b1 fun b2 => seqNat s1 fun s2 => fNeverLoses fuel b2 s2
      else
        fPows.all fun k =>
          if b / k % 4 == 0 then
            match fUpdate b s k with
            | (b1, s1) => seqNat b1 fun b2 => seqNat s1 fun s2 => fNeverLoses fuel b2 s2
          else true

/-! ## Codings between the structured and packed representations -/

/-- Cell code: 0 = Empty, 1 = Computer, 2 = Human. -/
def entCode : Entity → Nat
  | .Empty => 0
  | .Computer => 1
  | .Human => 2

/-- Game-state code: 0 = Ready, `10 + p` = Playing, `20 + p` = Repeat,
`30 + p` = Win, 40 = Draw. -/
def sCode : GameState → Nat
  | .Ready => 0
  | .Playing p => 10 + entCode p
  | .Repeat p => 20 + entCode p
  | .Win p => 30 + entCode p
  | .Draw => 40

/-- Board code: nine base-4 digits, row-major. -/
def encode (b : Board) : Nat :=
  entCode (getCell b 0 0) + 4 * entCode (getCell b 0 1) + 16 * entCode (getCell b 0 2)
    + 64 * entCode (getCell b 1 0) + 256 * entCode (getCell b 1 1)
    + 1024 * entCode (getCell b 1 2) + 4096 * entCode (getCell b 2 0)
    + 16384 * entCode (getCell b 2 1) + 65536 * entCode (getCell b 2 2)

/-- The weight of a cell: `4 ^ (3x + y)`. -/
def maskOf (rc : Fin 3 × Fin 3) : Nat := 4 ^ (3 * rc.1.val + rc.2.val)

/-- The five score values the search manipulates. -/
def isScore (s : Int) : Prop :=
  s = intMin ∨ s = -1 ∨ s = 0 ∨ s = 1 ∨ s = intMax

/-- Order-isomorphic score code: `MIN, -1, 0, 1, MAX` to `0, 1, 2, 3, 4`. -/
def sc (s : Int) : Nat :=
  if s = intMin then 0 else if s = -1 then 1 else if s = 0 then 2
  else if s = 1 then 3 else 4

/-- Boolean emptiness test of one cell. -/
def isEmptyCell (b : Board) (rc : Fin 3 × Fin 3) : Bool :=
  decide (getCell b rc.1 rc.2 = Entity.Empty)

/-- The `(score, depth)` pair `best_play` obtains for one of its candidate
moves: place the Computer mark there and run `minimax` for the Human. -/
def topEval (b : Board) (rc : Fin 3 × Fin 3) : Int × Int :=
  (minimax 9 (setMove b Entity.Computer rc.1 rc.2) Entity.Human intMin intMax 0).1

/-- The maximal top-level score over the candidate moves. -/
def maxTopScore (b : Board) : Int :=
  ((actions b).map fun rc => (topEval b rc).1).foldl max intMin

/-- The board `. . . / X O X / O X O`: three empty cells in row 0,
Computer to move; every candidate move scores -1, at depths 3, 2, 3. -/
def cexBoardC3 : Board :=
  ((.Empty, .Empty, .Empty),
   (.Computer, .Human, .Computer),
   (.Human, .Computer, .Human))

/-! ## Basic lemmas -/

theorem seqNat_eq (n : Nat) (k : Nat → α) : seqNat n k = k n := by
  cases n <;> rfl

theorem finRange3 : List.finRange 3 = [0, 1, 2] := rfl

theorem rowGet_rowSet_self (r : Row) (j : Fin 3) (e : Entity) :
    rowGet (rowSet r j e) j = e := by
  fin_cases j <;> rfl

theorem rowGet_rowSet_ne (r : Row) (j j' : Fin 3) (e : Entity) (h : j' ≠ j) :
    rowGet (rowSet r j e) j' = rowGet r j' := by
  fin_cases j <;> fin_cases j' <;> first | rfl | exact absurd rfl h

theorem rowSet_rowGet (r : Row) (j : Fin 3) : rowSet r j (rowGet r j) = r := by
  fin_cases j <;> rfl

theorem rowSet_rowSet (r : Row) (j : Fin 3) (e e' : Entity) :
    rowSet (rowSet r j e) j e' = rowSet r j e' := by
  fin_cases j <;> rfl

theorem getCell_setCell_self (b : Board) (x y : Fin 3) (e : Entity) :
    getCell (setCell b x y e) x y = e := by
  fin_cases x <;> simp [getCell, setCell, rowGet_rowSet_self]

theorem getCell_setCell_ne (b : Board) (x y i j : Fin 3) (e : Entity)
    (h : (i, j) ≠ (x, y)) : getCell (setCell b x y e) i j = getCell b i j := by
  fin_cases x <;> fin_cases i <;>
    first
      | rfl
      | (apply rowGet_rowSet_ne
         intro hj
         apply h
         rw [hj])

theorem setCell_getCell (b : Board) (x y : Fin 3) :
    setCell b x y (getCell b x y) = b := by
  fin_cases x <;> simp [getCell, setCell, rowSet_rowGet]

theorem setCell_setCell (b : Board) (x y : Fin 3) (e e' : Entity) :
    setCell (setCell b x y e) x y e' = setCell b x y e' := by
  fin_cases x <;> simp [setCell, rowSet_rowSet]

theorem undo_set (b : Board) (e : Entity) (x y : Fin 3)
    (h : getCell b x y = Entity.Empty) : undoMove (setMove b e x y) x y = b := by
  unfold undoMove setMove
  rw [setCell_setCell, ← h, setCell_getCell]

theorem if_singleton_append {c : Prop} [Decidable c] (a : α) (l : List α) :
    (if c then [a] else []) ++ l = if c then a :: l else l := by
  split <;> simp

theorem filter_cons_append (p : α → Bool) (a : α) (l : List α) :
    List.filter p (a :: l) = (if p a = true then [a] else []) ++ List.filter p l := by
  by_cases h : p a = true <;> simp [List.filter_cons, h]

theorem actions_eq_filter (b : Board) : actions b = allCells.filter (isEmptyCell b) := by
  unfold actions allCells isEmptyCell
  rw [finRange3]
  simp only [List.flatMap_cons, List.flatMap_nil, List.append_nil, filter_cons_append,
    List.filter_nil, List.append_assoc, decide_eq_true_eq]

theorem mem_allCells (rc : Fin 3 × Fin 3) : rc ∈ allCells := by
  obtain ⟨x, y⟩ := rc
  fin_cases x <;> fin_cases y <;> decide

theorem mem_actions {b : Board} {rc : Fin 3 × Fin 3} :
    rc ∈ actions b ↔ getCell b rc.1 rc.2 = Entity.Empty := by
  rw [actions_eq_filter, List.mem_filter]
  unfold isEmptyCell
  simp [mem_allCells]

/-! ## Restoration: the scratch board is returned intact -/

theorem minimaxLoop_board (mm : Board → Entity → Int → Int → Int → (Int × Int) × Board)
    (player : Entity) (hmm : ∀ b p a bt d, (mm b p a bt d).2 = b) :
    ∀ (acts : List (Fin 3 × Fin 3)) (b : Board) (m alpha beta depth : Int),
      (∀ rc ∈ acts, getCell b rc.1 rc.2 = Entity.Empty) →
      (minimaxLoop mm player acts b m alpha beta depth).2 = b := by
  intro acts
  induction acts with
  | nil => intro b m a bt d _; rfl
  | cons rc rest ih =>
    intro b m a bt d h
    obtain ⟨r, c⟩ := rc
    have hrc : getCell b r c = Entity.Empty := h (r, c) (List.mem_cons_self _ _)
    simp only [minimaxLoop]
    rw [hmm]
    rw [undo_set b player r c hrc]
    repeat' split
    all_goals
      first
        | rfl
        | exact ih b _ _ _ _ fun q hq => h q (List.mem_cons_of_mem _ hq)

theorem minimax_board :
    ∀ (fuel : Nat) (b : Board) (p : Entity) (alpha beta depth : Int),
      (minimax fuel b p alpha beta depth).2 = b := by
  intro fuel
  induction fuel with
  | zero =>
    intro b p a bt d
    simp only [minimax]
    split
    · rfl
    · rfl
  | succ fuel ih =>
    intro b p a bt d
    simp only [minimax]
    split
    · rfl
    · exact minimaxLoop_board _ p (fun b' p' a' bt' d' => ih b' p' a' bt' d')
        (actions b) b _ a bt d (fun rc hrc => mem_actions.mp hrc)

theorem bestPlayLoop_board :
    ∀ (acts : List (Fin 3 × Fin 3)) (b : Board) (s : Int) (best : Fin 3 × Fin 3),
      (∀ rc ∈ acts, getCell b rc.1 rc.2 = Entity.Empty) →
      (bestPlayLoop acts b s best).2 = b := by
  intro acts
  induction acts with
  | nil => intro b s best _; rfl
  | cons rc rest ih =>
    intro b s best h
    obtain ⟨r, c⟩ := rc
    have hrc : getCell b r c = Entity.Empty := h (r, c) (List.mem_cons_self _ _)
    simp only [bestPlayLoop]
    rw [minimax_board]
    rw [undo_set b Entity.Computer r c hrc]
    repeat' split
    all_goals exact ih b _ _ fun q hq => h q (List.mem_cons_of_mem _ hq)

/-- C9.  `Computer::minimax` returns its scratch board with every cell
equal to its value before the call (each trial placement is undone), and
so does the loop of `Computer::best_play`: the engine has no externally
observable effect on the caller's board. -/
theorem minimax_restores_board :
    (∀ (fuel : Nat) (b : Board) (p : Entity) (alpha beta depth : Int),
        (minimax fuel b p alpha beta depth).2 = b)
    ∧ (∀ b : Board, (bestPlayLoop (actions b) b intMin (0, 0)).2 = b) :=
  ⟨minimax_board,
   fun b => bestPlayLoop_board (actions b) b intMin (0, 0)
     fun _ hrc => mem_actions.mp hrc⟩

/-! ## Score range of `minimax` -/

theorem evaluate_range (b : Board) : -1 ≤ evaluate b ∧ evaluate b ≤ 1 := by
  unfold evaluate
  split
  · exact ⟨by omega, by omega⟩
  · split
    · exact ⟨by omega, by omega⟩
    · exact ⟨by omega, by omega⟩

theorem boardFull_iff (b : Board) :
    boardFull b = true ↔ ∀ x y : Fin 3, getCell b x y ≠ Entity.Empty := by
  unfold boardFull
  rw [finRange3]
  simp [Fin.forall_fin_succ_pi]
  constructor
  · rintro ⟨h0, h1, h2⟩ x y
    fin_cases x <;> fin_cases y <;> simp_all
  · intro h
    refine ⟨⟨h 0 0, h 0 1, h 0 2⟩, ⟨h 1 0, h 1 1, h 1 2⟩, h 2 0, h 2 1, h 2 2⟩

theorem actions_ne_nil (b : Board) (h : boardFull b = false) : actions b ≠ [] := by
  intro hnil
  have hne : ¬ ∀ x y : Fin 3, getCell b x y ≠ Entity.Empty := by
    intro hall
    rw [← boardFull_iff] at hall
    rw [hall] at h
    cases h
  push_neg at hne
  obtain ⟨x, y, hxy⟩ := hne
  have : (x, y) ∈ actions b := mem_actions.mpr hxy
  rw [hnil] at this
  exact absurd this (List.not_mem_nil _)

theorem minimaxLoop_cons_computer (mm : Board → Entity → Int → Int → Int → (Int × Int) × Board)
    (r c : Fin 3) (rest : List (Fin 3 × Fin 3)) (b : Board) (m alpha beta depth : Int) :
    minimaxLoop mm Entity.Computer ((r, c) :: rest) b m alpha beta depth =
      if beta ≤ max alpha (max m (mm (setMove b Entity.Computer r c) Entity.Human alpha beta (depth + 1)).1.1) then
        ((max m (mm (setMove b Entity.Computer r c) Entity.Human alpha beta (depth + 1)).1.1,
          (mm (setMove b Entity.Computer r c) Entity.Human alpha beta (depth + 1)).1.2),
         undoMove (mm (setMove b Entity.Computer r c) Entity.Human alpha beta (depth + 1)).2 r c)
      else
        minimaxLoop mm Entity.Computer rest
          (undoMove (mm (setMove b Entity.Computer r c) Entity.Human alpha beta (depth + 1)).2 r c)
          (max m (mm (setMove b Entity.Computer r c) Entity.Human alpha beta (depth + 1)).1.1)
          (max alpha (max m (mm (setMove b Entity.Computer r c) Entity.Human alpha beta (depth + 1)).1.1))
          beta
          (mm (setMove b Entity.Computer r c) Entity.Human alpha beta (depth + 1)).1.2 := rfl

theorem minimaxLoop_cons_human (mm : Board → Entity → Int → Int → Int → (Int × Int) × Board)
    (r c : Fin 3) (rest : List (Fin 3 × Fin 3)) (b : Board) (m alpha beta depth : Int) :
    minimaxLoop mm Entity.Human ((r, c) :: rest) b m alpha beta depth =
      if min beta (min m (mm (setMove b Entity.Human r c) Entity.Computer alpha beta (depth + 1)).1.1) ≤ alpha then
        ((min m (mm (setMove b Entity.Human r c) Entity.Computer alpha beta (depth + 1)).1.1,
          (mm (setMove b Entity.Human r c) Entity.Computer alpha beta (depth + 1)).1.2),
         undoMove (mm (setMove b Entity.Human r c) Entity.Computer alpha beta (depth + 1)).2 r c)
      else
        minimaxLoop mm Entity.Human rest
          (undoMove (mm (setMove b Entity.Human r c) Entity.Computer alpha beta (depth + 1)).2 r c)
          (min m (mm (setMove b Entity.Human r c) Entity.Computer alpha beta (depth + 1)).1.1)
          alpha
          (min beta (min m (mm (setMove b Entity.Human r c) Entity.Computer alpha beta (depth + 1)).1.1))
          (mm (setMove b Entity.Human r c) Entity.Computer alpha beta (depth + 1)).1.2 := rfl

theorem minimaxLoop_cons_empty (mm : Board → Entity → Int → Int → Int → (Int × Int) × Board)
    (r c : Fin 3) (rest : List (Fin 3 × Fin 3)) (b : Board) (m alpha beta depth : Int) :
    minimaxLoop mm Entity.Empty ((r, c) :: rest) b m alpha beta depth =
      if min beta (min m (mm (setMove b Entity.Empty r c) Entity.Empty alpha beta (depth + 1)).1.1) ≤ alpha then
        ((min m (mm (setMove b Entity.Empty r c) Entity.Empty alpha beta (depth + 1)).1.1,
          (mm (setMove b Entity.Empty r c) Entity.Empty alpha beta (depth + 1)).1.2),
         undoMove (mm (setMove b Entity.Empty r c) Entity.Empty alpha beta (depth + 1)).2 r c)
      else
        minimaxLoop mm Entity.Empty rest
          (undoMove (mm (setMove b Entity.Empty r c) Entity.Empty alpha beta (depth + 1)).2 r c)
          (min m (mm (setMove b Entity.Empty r c) Entity.Empty alpha beta (depth + 1)).1.1)
          alpha
          (min beta (min m (mm (setMove b Entity.Empty r c) Entity.Empty alpha beta (depth + 1)).1.1))
          (mm (setMove b Entity.Empty r c) Entity.Empty alpha beta (depth + 1)).1.2 := rfl

theorem minimaxLoop_score_range (mm : Board → Entity → Int → Int → Int → (Int × Int) × Board)
    (player : Entity)
    (hmm : ∀ b p a bt d, -1 ≤ (mm b p a bt d).1.1 ∧ (mm b p a bt d).1.1 ≤ 1) :
    ∀ (acts : List (Fin 3 × Fin 3)) (b : Board) (m alpha beta depth : Int),
      -1 ≤ m → m ≤ 1 →
      -1 ≤ (minimaxLoop mm player acts b m alpha beta depth).1.1
        ∧ (minimaxLoop mm player acts b m alpha beta depth).1.1 ≤ 1 := by
  intro acts
  induction acts with
  | nil => intro b m a bt d h1 h2; exact ⟨h1, h2⟩
  | cons rc rest ih =>
    intro b m a bt d h1 h2
    obtain ⟨r, c⟩ := rc
    cases player with
    | Computer =>
      have hv := hmm (setMove b Entity.Computer r c) Entity.Human a bt (d + 1)
      rw [minimaxLoop_cons_computer]
      split
      · exact ⟨le_trans h1 (le_max_left _ _), max_le h2 hv.2⟩
      · exact ih _ _ _ _ _ (le_trans h1 (le_max_left _ _)) (max_le h2 hv.2)
    | Human =>
      have hv := hmm (setMove b Entity.Human r c) Entity.Computer a bt (d + 1)
      rw [minimaxLoop_cons_human]
      split
      · exact ⟨le_min h1 hv.1, le_trans (min_le_left _ _) h2⟩
      · exact ih _ _ _ _ _ (le_min h1 hv.1) (le_trans (min_le_left _ _) h2)
    | Empty =>
      have hv := hmm (setMove b Entity.Empty r c) Entity.Empty a bt (d + 1)
      rw [minimaxLoop_cons_empty]
      split
      · exact ⟨le_min h1 hv.1, le_trans (min_le_left _ _) h2⟩
      · exact ih _ _ _ _ _ (le_min h1 hv.1) (le_trans (min_le_left _ _) h2)

theorem minimax_score_range :
    ∀ (fuel : Nat) (b : Board) (p : Entity) (alpha beta depth : Int),
      -1 ≤ (minimax fuel b p alpha beta depth).1.1
        ∧ (minimax fuel b p alpha beta depth).1.1 ≤ 1 := by
  intro fuel
  induction fuel with
  | zero =>
    intro b p a bt d
    simp only [minimax]
    split
    · exact evaluate_range b
    · exact evaluate_range b
  | succ fuel ih =>
    intro b p a bt d
    simp only [minimax]
    split
    · exact evaluate_range b
    · rename_i hterm
      have hfull : boardFull b = false := by
        simp only [Bool.or_eq_true, not_or, Bool.not_eq_true] at hterm
        exact hterm.2
      obtain ⟨rc, rest, hacts⟩ := List.exists_cons_of_ne_nil (actions_ne_nil b hfull)
      obtain ⟨r, c⟩ := rc
      rw [hacts]
      cases p with
      | Computer =>
        rw [if_pos (rfl : Entity.Computer = Entity.Computer)]
        have hv := ih (setMove b Entity.Computer r c) Entity.Human a bt (d + 1)
        rw [minimaxLoop_cons_computer]
        have hm1 : max intMin (minimax fuel (setMove b Entity.Computer r c) Entity.Human a bt (d + 1)).1.1
            = (minimax fuel (setMove b Entity.Computer r c) Entity.Human a bt (d + 1)).1.1 :=
          max_eq_right (by unfold intMin; omega)
        rw [hm1]
        split
        · exact hv
        · exact minimaxLoop_score_range _ _ ih rest _ _ _ _ _ hv.1 hv.2
      | Human =>
        rw [if_neg (by decide : ¬ Entity.Human = Entity.Computer)]
        have hv := ih (setMove b Entity.Human r c) Entity.Computer a bt (d + 1)
        rw [minimaxLoop_cons_human]
        have hm1 : min intMax (minimax fuel (setMove b Entity.Human r c) Entity.Computer a bt (d + 1)).1.1
            = (minimax fuel (setMove b Entity.Human r c) Entity.Computer a bt (d + 1)).1.1 :=
          min_eq_right (by unfold intMax; omega)
        rw [hm1]
        split
        · exact hv
        · exact minimaxLoop_score_range _ _ ih rest _ _ _ _ _ hv.1 hv.2
      | Empty =>
        rw [if_neg (by decide : ¬ Entity.Empty = Entity.Computer)]
        have hv := ih (setMove b Entity.Empty r c) Entity.Empty a bt (d + 1)
        rw [minimaxLoop_cons_empty]
        have hm1 : min intMax (minimax fuel (setMove b Entity.Empty r c) Entity.Empty a bt (d + 1)).1.1
            = (minimax fuel (setMove b Entity.Empty r c) Entity.Empty a bt (d + 1)).1.1 :=
          min_eq_right (by unfold intMax; omega)
        rw [hm1]
        split
        · exact hv
        · exact minimaxLoop_score_range _ _ ih rest _ _ _ _ _ hv.1 hv.2

/-! ## C2: `best_play` returns an empty cell -/

theorem bestPlayLoop_mem :
    ∀ (acts : List (Fin 3 × Fin 3)) (b : Board) (s : Int) (best : Fin 3 × Fin 3),
      (∀ rc ∈ acts, getCell b rc.1 rc.2 = Entity.Empty) →
      (bestPlayLoop acts b s best).1 = best ∨ (bestPlayLoop acts b s best).1 ∈ acts := by
  intro acts
  induction acts with
  | nil => intro b s best _; exact Or.inl rfl
  | cons rc rest ih =>
    intro b s best h
    obtain ⟨r, c⟩ := rc
    have hrc : getCell b r c = Entity.Empty := h (r, c) (List.mem_cons_self _ _)
    have hrest : ∀ q ∈ rest, getCell b q.1 q.2 = Entity.Empty :=
      fun q hq => h q (List.mem_cons_of_mem _ hq)
    simp only [bestPlayLoop]
    rw [minimax_board, undo_set b Entity.Computer r c hrc, if_pos hrc]
    split
    · rcases ih b _ (r, c) hrest with h1 | h1
      · exact Or.inr (by rw [h1]; exact List.mem_cons_self _ _)
      · exact Or.inr (List.mem_cons_of_mem _ h1)
    · rcases ih b s best hrest with h1 | h1
      · exact Or.inl h1
      · exact Or.inr (List.mem_cons_of_mem _ h1)

theorem best_play_mem (b : Board) (h : actions b ≠ []) : best_play b ∈ actions b := by
  obtain ⟨⟨r, c⟩, rest, hacts⟩ := List.exists_cons_of_ne_nil h
  have hrc : getCell b r c = Entity.Empty :=
    mem_actions.mp (hacts ▸ List.mem_cons_self (r, c) rest)
  have hrest : ∀ q ∈ rest, getCell b q.1 q.2 = Entity.Empty :=
    fun q hq => mem_actions.mp (hacts ▸ List.mem_cons_of_mem _ hq)
  unfold best_play
  rw [hacts]
  simp only [bestPlayLoop]
  rw [minimax_board, undo_set b Entity.Computer r c hrc, if_pos hrc]
  have hscore := (minimax_score_range 9 (setMove b Entity.Computer r c) Entity.Human intMin intMax 0).1
  rw [if_pos (lt_of_lt_of_le (by unfold intMin; omega) hscore)]
  rcases bestPlayLoop_mem rest b _ (r, c) hrest with h1 | h1
  · rw [h1]; exact List.mem_cons_self _ _
  · exact List.mem_cons_of_mem _ h1

/-- C2.  On a board with at least one `Empty` cell, `best_play` returns a
coordinate pair (both components in `Fin 3`, hence in `[0,2]`) whose cell
is `Empty` in the input board. -/
theorem best_play_returns_empty_cell (b : Board)
    (h : ∃ x y : Fin 3, getCell b x y = Entity.Empty) :
    getCell b (best_play b).1 (best_play b).2 = Entity.Empty := by
  obtain ⟨x, y, hxy⟩ := h
  have hmem : (x, y) ∈ actions b := mem_actions.mpr hxy
  have hne : actions b ≠ [] := List.ne_nil_of_mem hmem
  exact mem_actions.mp (best_play_mem b hne)

/-- Witness for C2 at a concrete board with exactly one empty cell. -/
theorem best_play_returns_empty_cell_witness :
    (∃ x y : Fin 3,
        getCell ((Entity.Computer, Entity.Human, Entity.Computer),
                 (Entity.Human, Entity.Computer, Entity.Human),
                 (Entity.Computer, Entity.Human, Entity.Empty)) x y = Entity.Empty)
    ∧ getCell ((Entity.Computer, Entity.Human, Entity.Computer),
               (Entity.Human, Entity.Computer, Entity.Human),
               (Entity.Computer, Entity.Human, Entity.Empty))
        (best_play ((Entity.Computer, Entity.Human, Entity.Computer),
                    (Entity.Human, Entity.Computer, Entity.Human),
                    (Entity.Computer, Entity.Human, Entity.Empty))).1
        (best_play ((Entity.Computer, Entity.Human, Entity.Computer),
                    (Entity.Human, Entity.Computer, Entity.Human),
                    (Entity.Computer, Entity.Human, Entity.Empty))).2 = Entity.Empty :=
  ⟨⟨2, 2, by decide⟩,
   best_play_returns_empty_cell _ ⟨2, 2, by decide⟩⟩

/-! ## C10: `best_play` on a full board -/

/-- C10.  On a board with no `Empty` cell, `best_play` falls through its
loop without any candidate and returns the initial `(0, 0)`, a coordinate
whose cell is occupied; it neither fails nor signals the violation. -/
theorem best_play_full_board (b : Board)
    (h : ∀ x y : Fin 3, getCell b x y ≠ Entity.Empty) :
    best_play b = (0, 0) ∧ getCell b 0 0 ≠ Entity.Empty := by
  have hacts : actions b = [] := by
    rw [List.eq_nil_iff_forall_not_mem]
    intro rc hrc
    exact h rc.1 rc.2 (mem_actions.mp hrc)
  constructor
  · unfold best_play
    rw [hacts]
    rfl
  · exact h 0 0

/-- Witness for C10 at a concrete full board. -/
theorem best_play_full_board_witness :
    (∀ x y : Fin 3,
        getCell ((Entity.Computer, Entity.Human, Entity.Computer),
                 (Entity.Computer, Entity.Human, Entity.Human),
                 (Entity.Human, Entity.Computer, Entity.Computer)) x y ≠ Entity.Empty)
    ∧ best_play ((Entity.Computer, Entity.Human, Entity.Computer),
                 (Entity.Computer, Entity.Human, Entity.Human),
                 (Entity.Human, Entity.Computer, Entity.Computer)) = (0, 0)
    ∧ getCell ((Entity.Computer, Entity.Human, Entity.Computer),
               (Entity.Computer, Entity.Human, Entity.Human),
               (Entity.Human, Entity.Computer, Entity.Computer)) 0 0 ≠ Entity.Empty :=
  ⟨by decide, best_play_full_board _ (by decide)⟩

/-! ## C7: moves in non-playable phases are ignored -/

/-- C7.  In the `Ready`, `Win` and `Draw` phases, `update` changes neither
the phase nor any board cell. -/
theorem update_nonplayable_noop (g : Game) (x y : Fin 3)
    (h : g.state = .Ready ∨ (∃ p, g.state = .Win p) ∨ g.state = .Draw) :
    g.update x y = g := by
  unfold Game.update
  rcases h with h | ⟨p, h⟩ | h <;> rw [h]

/-- Witness for C7 on a concrete `Draw` session. -/
theorem update_nonplayable_noop_witness :
    ((⟨emptyBoard, .Draw⟩ : Game).state = GameState.Ready
      ∨ (∃ p, (⟨emptyBoard, .Draw⟩ : Game).state = GameState.Win p)
      ∨ (⟨emptyBoard, .Draw⟩ : Game).state = GameState.Draw)
    ∧ (⟨emptyBoard, .Draw⟩ : Game).update 1 1 = ⟨emptyBoard, .Draw⟩ :=
  ⟨Or.inr (Or.inr rfl),
   update_nonplayable_noop ⟨emptyBoard, .Draw⟩ 1 1 (Or.inr (Or.inr rfl))⟩

/-! ## C6: occupied target cell -/

theorem update_eq_applyMove_playing (g : Game) (p : Entity) (x y : Fin 3)
    (h : g.state = .Playing p) : g.update x y = Game.applyMove g p x y := by
  unfold Game.update
  rw [h]

theorem update_eq_applyMove_repeat (g : Game) (p : Entity) (x y : Fin 3)
    (h : g.state = .Repeat p) : g.update x y = Game.applyMove g p x y := by
  unfold Game.update
  rw [h]

theorem applyMove_occupied (g : Game) (p : Entity) (x y : Fin 3)
    (hocc : getCell g.board x y ≠ Entity.Empty) :
    Game.applyMove g p x y = ⟨g.board, .Repeat p⟩ := by
  unfold Game.applyMove
  rw [if_neg hocc]

/-- C6.  In phase `Playing p` or `Repeat p`, a move attempt on an occupied
cell sets the phase to `Repeat p` and leaves every board cell unchanged. -/
theorem update_occupied (g : Game) (p : Entity) (x y : Fin 3)
    (hstate : g.state = .Playing p ∨ g.state = .Repeat p)
    (hocc : getCell g.board x y ≠ Entity.Empty) :
    (g.update x y).state = .Repeat p ∧ (g.update x y).board = g.board := by
  rcases hstate with h | h
  · rw [update_eq_applyMove_playing g p x y h, applyMove_occupied g p x y hocc]
    exact ⟨rfl, rfl⟩
  · rw [update_eq_applyMove_repeat g p x y h, applyMove_occupied g p x y hocc]
    exact ⟨rfl, rfl⟩

/-- Witness for C6: the human retries after clicking the occupied center. -/
theorem update_occupied_witness :
    ((⟨((Entity.Empty, Entity.Empty, Entity.Empty),
        (Entity.Empty, Entity.Computer, Entity.Empty),
        (Entity.Empty, Entity.Empty, Entity.Empty)), .Playing .Human⟩ : Game).state
          = GameState.Playing Entity.Human
        ∨ (⟨((Entity.Empty, Entity.Empty, Entity.Empty),
             (Entity.Empty, Entity.Computer, Entity.Empty),
             (Entity.Empty, Entity.Empty, Entity.Empty)), .Playing .Human⟩ : Game).state
          = GameState.Repeat Entity.Human)
    ∧ getCell ((Entity.Empty, Entity.Empty, Entity.Empty),
               (Entity.Empty, Entity.Computer, Entity.Empty),
               (Entity.Empty, Entity.Empty, Entity.Empty)) 1 1 ≠ Entity.Empty
    ∧ ((⟨((Entity.Empty, Entity.Empty, Entity.Empty),
          (Entity.Empty, Entity.Computer, Entity.Empty),
          (Entity.Empty, Entity.Empty, Entity.Empty)), .Playing .Human⟩ : Game).update 1 1).state
        = GameState.Repeat Entity.Human
    ∧ ((⟨((Entity.Empty, Entity.Empty, Entity.Empty),
          (Entity.Empty, Entity.Computer, Entity.Empty),
          (Entity.Empty, Entity.Empty, Entity.Empty)), .Playing .Human⟩ : Game).update 1 1).board
        = ((Entity.Empty, Entity.Empty, Entity.Empty),
           (Entity.Empty, Entity.Computer, Entity.Empty),
           (Entity.Empty, Entity.Empty, Entity.Empty)) :=
  ⟨Or.inl rfl, by decide,
   (update_occupied _ Entity.Human 1 1 (Or.inl rfl) (by decide)).1,
   (update_occupied _ Entity.Human 1 1 (Or.inl rfl) (by decide)).2⟩

/-! ## C8: `start` designates the human as first mover -/

/-- Counterexample to C8: on a fresh `Ready` session, `start` sets the
phase to `Playing Human`, not `Playing Computer` — in `game.rs` the human,
not the automated player, is the designated first mover. -/
theorem start_counterexample :
    (Game.start ⟨emptyBoard, .Ready⟩).state = GameState.Playing Entity.Human
      ∧ GameState.Playing Entity.Human ≠ GameState.Playing Entity.Computer :=
  ⟨rfl, by decide⟩

/-- C8 (amended).  `start()` on a `Ready` session sets the phase to
`Turn(human-player)`: the human is the designated first mover. -/
theorem start_sets_playing_human (g : Game) (_h : g.state = .Ready) :
    (g.start).state = GameState.Playing Entity.Human := rfl

/-- Witness for the amended C8 on a fresh session. -/
theorem start_sets_playing_human_witness :
    (⟨emptyBoard, .Ready⟩ : Game).state = GameState.Ready
      ∧ (Game.start ⟨emptyBoard, .Ready⟩).state = GameState.Playing Entity.Human :=
  ⟨rfl, start_sets_playing_human ⟨emptyBoard, .Ready⟩ rfl⟩

/-! ## Win detection and completed lines -/

theorem all3_iff (P : Fin 3 → Prop) [DecidablePred P] :
    (((List.finRange 3).all fun i => decide (P i)) = true) ↔ P 0 ∧ P 1 ∧ P 2 := by
  rw [finRange3]
  simp [List.all_cons]

theorem ite3_true_iff {c1 c2 c3 : Prop} [Decidable c1] [Decidable c2] [Decidable c3] :
    ((if c1 then true else if c2 then true else if c3 then true else false) = true)
      ↔ c1 ∨ c2 ∨ c3 := by
  split_ifs <;> simp_all

theorem revIdx0 : revIdx 0 = 2 := rfl

theorem revIdx1 : revIdx 1 = 1 := rfl

theorem revIdx2 : revIdx 2 = 0 := rfl

theorem is_winner_eq_true_iff (b : Board) (e : Entity) (x y : Fin 3) :
    Game.is_winner b e x y = true ↔
      ((getCell b x 0 = e ∧ getCell b x 1 = e ∧ getCell b x 2 = e)
        ∨ (getCell b 0 y = e ∧ getCell b 1 y = e ∧ getCell b 2 y = e)
        ∨ (x = y ∧ (getCell b 0 0 = e ∧ getCell b 1 1 = e ∧ getCell b 2 2 = e))
        ∨ (x.val + y.val = 2
            ∧ (getCell b 0 2 = e ∧ getCell b 1 1 = e ∧ getCell b 2 0 = e))) := by
  unfold Game.is_winner
  rw [ite3_true_iff]
  rw [Bool.or_eq_true, all3_iff (fun i => getCell b x i = e), all3_iff (fun i => getCell b i y = e)]
  rw [Bool.and_eq_true, Bool.and_eq_true, decide_eq_true_eq, decide_eq_true_eq]
  rw [all3_iff (fun i => getCell b i i = e), all3_iff (fun i => getCell b i (revIdx i) = e)]
  rw [revIdx0, revIdx1, revIdx2]
  tauto

theorem lineThroughAt_iff (b : Board) (e : Entity) (x y : Fin 3) :
    lineThroughAt b e x y ↔
      (((x, y) ∈ ([(0, 0), (0, 1), (0, 2)] : List (Fin 3 × Fin 3))
          ∧ (getCell b 0 0 = e ∧ getCell b 0 1 = e ∧ getCell b 0 2 = e))
        ∨ ((x, y) ∈ ([(1, 0), (1, 1), (1, 2)] : List (Fin 3 × Fin 3))
          ∧ (getCell b 1 0 = e ∧ getCell b 1 1 = e ∧ getCell b 1 2 = e))
        ∨ ((x, y) ∈ ([(2, 0), (2, 1), (2, 2)] : List (Fin 3 × Fin 3))
          ∧ (getCell b 2 0 = e ∧ getCell b 2 1 = e ∧ getCell b 2 2 = e))
        ∨ ((x, y) ∈ ([(0, 0), (1, 0), (2, 0)] : List (Fin 3 × Fin 3))
          ∧ (getCell b 0 0 = e ∧ getCell b 1 0 = e ∧ getCell b 2 0 = e))
        ∨ ((x, y) ∈ ([(0, 1), (1, 1), (2, 1)] : List (Fin 3 × Fin 3))
          ∧ (getCell b 0 1 = e ∧ getCell b 1 1 = e ∧ getCell b 2 1 = e))
        ∨ ((x, y) ∈ ([(0, 2), (1, 2), (2, 2)] : List (Fin 3 × Fin 3))
          ∧ (getCell b 0 2 = e ∧ getCell b 1 2 = e ∧ getCell b 2 2 = e))
        ∨ ((x, y) ∈ ([(0, 0), (1, 1), (2, 2)] : List (Fin 3 × Fin 3))
          ∧ (getCell b 0 0 = e ∧ getCell b 1 1 = e ∧ getCell b 2 2 = e))
        ∨ ((x, y) ∈ ([(0, 2), (1, 1), (2, 0)] : List (Fin 3 × Fin 3))
          ∧ (getCell b 0 2 = e ∧ getCell b 1 1 = e ∧ getCell b 2 0 = e))) := by
  unfold lineThroughAt lines
  simp only [List.mem_cons, List.not_mem_nil, or_false, exists_eq_or_imp, exists_eq_left,
    forall_eq_or_imp, forall_eq, List.forall_mem_cons, List.forall_mem_nil, and_true]

set_option maxHeartbeats 1000000 in
theorem is_winner_iff (b : Board) (e : Entity) (x y : Fin 3) :
    Game.is_winner b e x y = true ↔ lineThroughAt b e x y := by
  rw [is_winner_eq_true_iff, lineThroughAt_iff]
  fin_cases x <;> fin_cases y <;>
    simp +decide only [List.mem_cons, List.not_mem_nil, or_false, false_or, or_true, true_or,
      true_and, false_and, and_true, and_false, Prod.mk.injEq] <;>
    tauto

theorem hasLine_of_lineThroughAt {b : Board} {e : Entity} {x y : Fin 3}
    (h : lineThroughAt b e x y) : hasLine b e := by
  obtain ⟨L, hL, _, hall⟩ := h
  exact ⟨L, hL, hall⟩

/-! ## C5: a `Win` phase always comes with a completed line -/

theorem update_win_invariant (g : Game) (x y : Fin 3)
    (hinv : ∀ w, g.state = .Win w → hasLine g.board w) :
    ∀ w, (g.update x y).state = .Win w → hasLine (g.update x y).board w := by
  intro w hw
  cases hstate : g.state with
  | Ready =>
    rw [update_nonplayable_noop g x y (Or.inl hstate)] at hw ⊢
    exact hinv w hw
  | Draw =>
    rw [update_nonplayable_noop g x y (Or.inr (Or.inr hstate))] at hw ⊢
    exact hinv w hw
  | Win p =>
    rw [update_nonplayable_noop g x y (Or.inr (Or.inl ⟨p, hstate⟩))] at hw ⊢
    exact hinv w hw
  | Playing s =>
    rw [update_eq_applyMove_playing g s x y hstate] at hw ⊢
    unfold Game.applyMove at hw ⊢
    by_cases hempty : getCell g.board x y = Entity.Empty
    · rw [if_pos hempty] at hw ⊢
      by_cases hwin : Game.is_winner (setCell g.board x y s) s x y = true
      · rw [if_pos hwin] at hw ⊢
        cases hw
        exact hasLine_of_lineThroughAt ((is_winner_iff _ _ _ _).mp hwin)
      · rw [if_neg hwin] at hw ⊢
        split at hw
        · cases hw
        · cases hw
    · rw [if_neg hempty] at hw
      cases hw
  | Repeat s =>
    rw [update_eq_applyMove_repeat g s x y hstate] at hw ⊢
    unfold Game.applyMove at hw ⊢
    by_cases hempty : getCell g.board x y = Entity.Empty
    · rw [if_pos hempty] at hw ⊢
      by_cases hwin : Game.is_winner (setCell g.board x y s) s x y = true
      · rw [if_pos hwin] at hw ⊢
        cases hw
        exact hasLine_of_lineThroughAt ((is_winner_iff _ _ _ _).mp hwin)
      · rw [if_neg hwin] at hw ⊢
        split at hw
        · cases hw
        · cases hw
    · rw [if_neg hempty] at hw
      cases hw

/-- C5.  In every session reachable from a fresh `Ready` session by
`start`, `update` and `reset` calls, a `Win winner` phase implies the
board contains a completed row, column or diagonal consisting entirely of
the winner's cells. -/
theorem reachable_win_has_line (g : Game) (hreach : Reachable g) :
    ∀ w, g.state = .Win w → hasLine g.board w := by
  induction hreach with
  | init => intro w hw; cases hw
  | step_start _ _ => intro w hw; cases hw
  | step_update x y _ ih => exact update_win_invariant _ x y ih
  | step_reset _ _ => intro w hw; cases hw

/-- Witness for C5: a full play in which the human completes row 0. -/
theorem reachable_win_has_line_witness :
    ((((((Game.default.start).update 0 0).update 1 0).update 0 1).update 1 1).update 0 2).state
        = GameState.Win Entity.Human
    ∧ hasLine
        ((((((Game.default.start).update 0 0).update 1 0).update 0 1).update 1 1).update 0 2).board
        Entity.Human :=
  ⟨by decide,
   reachable_win_has_line _
     (.step_update 0 2 (.step_update 1 1 (.step_update 0 1 (.step_update 1 0
       (.step_update 0 0 (.step_start .init))))))
     Entity.Human (by decide)⟩

/-! ## C4: applying a move to an empty cell -/

/-- C4.  In phase `Playing p` or `Repeat p` (for a player `p`), a move on
an `Empty` cell places p's mark there, and the next phase is: `Win p` if
the placement completed a line for `p` (a line through the played cell is
now entirely p's — a line elsewhere cannot have been completed by this
placement), else `Draw` if the board is now full, else
`Playing (complement p)`. -/
theorem update_empty_cell (g : Game) (p : Entity) (x y : Fin 3)
    (_hp : p ≠ Entity.Empty)
    (hstate : g.state = .Playing p ∨ g.state = .Repeat p)
    (hempty : getCell g.board x y = Entity.Empty) :
    (g.update x y).board = setCell g.board x y p
    ∧ (lineThroughAt (setCell g.board x y p) p x y → (g.update x y).state = .Win p)
    ∧ (¬ lineThroughAt (setCell g.board x y p) p x y →
        (∀ i j : Fin 3, getCell (setCell g.board x y p) i j ≠ Entity.Empty) →
        (g.update x y).state = .Draw)
    ∧ (¬ lineThroughAt (setCell g.board x y p) p x y →
        ¬ (∀ i j : Fin 3, getCell (setCell g.board x y p) i j ≠ Entity.Empty) →
        (g.update x y).state = .Playing p.not) := by
  have hup : g.update x y = Game.applyMove g p x y := by
    rcases hstate with h | h
    · exact update_eq_applyMove_playing g p x y h
    · exact update_eq_applyMove_repeat g p x y h
  rw [hup]
  unfold Game.applyMove
  rw [if_pos hempty]
  dsimp only
  refine ⟨?_, ?_, ?_, ?_⟩
  · split
    · rfl
    · split
      · rfl
      · rfl
  · intro hline
    rw [if_pos ((is_winner_iff _ _ _ _).mpr hline)]
  · intro hnl hfull
    rw [if_neg fun hw => hnl ((is_winner_iff _ _ _ _).mp hw),
      if_pos ((boardFull_iff _).mpr hfull)]
  · intro hnl hnfull
    rw [if_neg fun hw => hnl ((is_winner_iff _ _ _ _).mp hw),
      if_neg fun hf => hnfull ((boardFull_iff _).mp hf)]

/-- Witness for C4: the computer plays the empty corner (0, 0) and play
passes to the human. -/
theorem update_empty_cell_witness :
    (Entity.Computer ≠ Entity.Empty)
    ∧ ((⟨emptyBoard, .Playing .Computer⟩ : Game).state = GameState.Playing Entity.Computer
        ∨ (⟨emptyBoard, .Playing .Computer⟩ : Game).state = GameState.Repeat Entity.Computer)
    ∧ getCell emptyBoard 0 0 = Entity.Empty
    ∧ ((⟨emptyBoard, .Playing .Computer⟩ : Game).update 0 0).board
        = setCell emptyBoard 0 0 Entity.Computer
    ∧ ((⟨emptyBoard, .Playing .Computer⟩ : Game).update 0 0).state
        = GameState.Playing Entity.Computer.not := by
  refine ⟨by decide, Or.inl rfl, by decide, ?_, ?_⟩
  · exact (update_empty_cell ⟨emptyBoard, .Playing .Computer⟩ Entity.Computer 0 0
      (by decide) (Or.inl rfl) (by decide)).1
  · exact (update_empty_cell ⟨emptyBoard, .Playing .Computer⟩ Entity.Computer 0 0
      (by decide) (Or.inl rfl) (by decide)).2.2.2 (by decide) (by decide)

/-! ## C3: choice among the top-level actions -/

theorem foldl_max_le_init (l : List Int) :
    ∀ a : Int, (∀ x ∈ l, x ≤ a) → l.foldl max a = a := by
  induction l with
  | nil => intro a _; rfl
  | cons x l ih =>
    intro a h
    rw [List.foldl_cons, max_eq_left (h x (List.mem_cons_self _ _))]
    exact ih a fun y hy => h y (List.mem_cons_of_mem _ hy)

theorem init_le_foldl_max (l : List Int) : ∀ a : Int, a ≤ l.foldl max a := by
  induction l with
  | nil => intro a; exact le_refl a
  | cons x l ih =>
    intro a
    rw [List.foldl_cons]
    exact le_trans (le_max_left a x) (ih (max a x))

theorem mem_le_foldl_max (l : List Int) :
    ∀ (a x : Int), x ∈ l → x ≤ l.foldl max a := by
  induction l with
  | nil => intro a x hx; cases hx
  | cons y l ih =>
    intro a x hx
    rw [List.foldl_cons]
    rcases List.mem_cons.mp hx with rfl | hx
    · exact le_trans (le_max_right a x) (init_le_foldl_max l _)
    · exact ih (max a y) x hx

theorem bestPlayLoop_stay (b : Board) :
    ∀ (acts : List (Fin 3 × Fin 3)) (s : Int) (best : Fin 3 × Fin 3),
      (∀ rc ∈ acts, getCell b rc.1 rc.2 = Entity.Empty) →
      (∀ rc ∈ acts, (topEval b rc).1 ≤ s) →
      (bestPlayLoop acts b s best).1 = best := by
  intro acts
  induction acts with
  | nil => intro s best _ _; rfl
  | cons rc rest ih =>
    intro s best hemp hle
    obtain ⟨r, c⟩ := rc
    have hrc := hemp (r, c) (List.mem_cons_self _ _)
    simp only [bestPlayLoop]
    rw [minimax_board, undo_set b Entity.Computer r c hrc, if_pos hrc]
    rw [show (minimax 9 (setMove b Entity.Computer r c) Entity.Human intMin intMax 0).1.1
      = (topEval b (r, c)).1 from rfl]
    rw [if_neg (not_lt.mpr (hle (r, c) (List.mem_cons_self _ _)))]
    exact ih s best (fun q hq => hemp q (List.mem_cons_of_mem _ hq))
      (fun q hq => hle q (List.mem_cons_of_mem _ hq))

theorem bestPlayLoop_find (b : Board) :
    ∀ (acts : List (Fin 3 × Fin 3)) (s : Int) (best : Fin 3 × Fin 3),
      (∀ rc ∈ acts, getCell b rc.1 rc.2 = Entity.Empty) →
      (∃ rc ∈ acts, s < (topEval b rc).1) →
      acts.find?
          (fun rc => decide ((topEval b rc).1
            = (acts.map fun rc => (topEval b rc).1).foldl max s))
        = some (bestPlayLoop acts b s best).1 := by
  intro acts
  induction acts with
  | nil =>
    intro s best _ hex
    obtain ⟨rc, hrc, _⟩ := hex
    cases hrc
  | cons rc0 rest ih =>
    intro s best hemp hex
    obtain ⟨r, c⟩ := rc0
    have hrc : getCell b r c = Entity.Empty := hemp (r, c) (List.mem_cons_self _ _)
    have hrest : ∀ q ∈ rest, getCell b q.1 q.2 = Entity.Empty :=
      fun q hq => hemp q (List.mem_cons_of_mem _ hq)
    simp only [bestPlayLoop, List.map_cons, List.foldl_cons]
    rw [minimax_board, undo_set b Entity.Computer r c hrc, if_pos hrc]
    rw [show (minimax 9 (setMove b Entity.Computer r c) Entity.Human intMin intMax 0).1.1
      = (topEval b (r, c)).1 from rfl]
    by_cases hcmp : s < (topEval b (r, c)).1
    · rw [if_pos hcmp]
      simp only [max_eq_right (le_of_lt hcmp)]
      by_cases hall : ∀ q ∈ rest, (topEval b q).1 ≤ (topEval b (r, c)).1
      · have hM : ((rest.map fun rc => (topEval b rc).1).foldl max (topEval b (r, c)).1)
            = (topEval b (r, c)).1 := by
          apply foldl_max_le_init
          intro x hx
          obtain ⟨q, hq, rfl⟩ := List.mem_map.mp hx
          exact hall q hq
        rw [List.find?_cons_of_pos _ (by rw [hM]; exact decide_eq_true rfl)]
        rw [bestPlayLoop_stay b rest _ (r, c) hrest hall]
      · push_neg at hall
        obtain ⟨q, hq, hqgt⟩ := hall
        have hqM : (topEval b q).1
            ≤ (rest.map fun rc => (topEval b rc).1).foldl max (topEval b (r, c)).1 :=
          mem_le_foldl_max _ _ _ (List.mem_map.mpr ⟨q, hq, rfl⟩)
        rw [List.find?_cons_of_neg _ (by
          simp only [decide_eq_true_eq]
          omega)]
        exact ih (topEval b (r, c)).1 (r, c) hrest ⟨q, hq, hqgt⟩
    · rw [if_neg hcmp]
      simp only [max_eq_left (not_lt.mp hcmp)]
      obtain ⟨q0, hq0, hq0gt⟩ := hex
      have hq0' : q0 ∈ rest := by
        rcases List.mem_cons.mp hq0 with rfl | h
        · exact absurd hq0gt hcmp
        · exact h
      have hq0M : (topEval b q0).1 ≤ (rest.map fun rc => (topEval b rc).1).foldl max s :=
        mem_le_foldl_max _ _ _ (List.mem_map.mpr ⟨q0, hq0', rfl⟩)
      have hrcs : (topEval b (r, c)).1 ≤ s := not_lt.mp hcmp
      rw [List.find?_cons_of_neg _ (by
        simp only [decide_eq_true_eq]
        omega)]
      exact ih s best hrest ⟨q0, hq0', hq0gt⟩

/-- C3 (amended).  Among the top-level actions, `best_play` returns the
first action in row-major enumeration order whose top-level minimax score
is maximal; the depth returned alongside the score is not consulted. -/
theorem best_play_first_argmax (b : Board) (h : actions b ≠ []) :
    (actions b).find? (fun rc => decide ((topEval b rc).1 = maxTopScore b))
      = some (best_play b) := by
  obtain ⟨⟨r, c⟩, rest, hacts⟩ := List.exists_cons_of_ne_nil h
  have hscore := (minimax_score_range 9 (setMove b Entity.Computer r c)
    Entity.Human intMin intMax 0).1
  have hex : ∃ rc ∈ actions b, intMin < (topEval b rc).1 := by
    refine ⟨(r, c), by rw [hacts]; exact List.mem_cons_self _ _, ?_⟩
    exact lt_of_lt_of_le (by unfold intMin; omega) hscore
  exact bestPlayLoop_find b (actions b) intMin (0, 0)
    (fun q hq => mem_actions.mp hq) hex

/-- Counterexample to C3 as stated: on `cexBoardC3` the actions `(0, 0)`
and `(0, 1)` score equally, `(0, 1)` reaches its outcome at strictly
smaller reported depth, yet `best_play` returns `(0, 0)`: the
equal-score-shallower-depth tie-break does not exist in `best_play`. -/
theorem best_play_depth_counterexample :
    best_play cexBoardC3 = (0, 0)
    ∧ ((0, 1) : Fin 3 × Fin 3) ∈ actions cexBoardC3
    ∧ (topEval cexBoardC3 (0, 1)).1 = (topEval cexBoardC3 (0, 0)).1
    ∧ (topEval cexBoardC3 (0, 1)).2 < (topEval cexBoardC3 (0, 0)).2 := by
  decide

/-- Witness for the amended C3 at a concrete board with one empty cell. -/
theorem best_play_first_argmax_witness :
    actions ((Entity.Computer, Entity.Human, Entity.Computer),
             (Entity.Human, Entity.Computer, Entity.Human),
             (Entity.Computer, Entity.Human, Entity.Empty)) ≠ []
    ∧ (actions ((Entity.Computer, Entity.Human, Entity.Computer),
                (Entity.Human, Entity.Computer, Entity.Human),
                (Entity.Computer, Entity.Human, Entity.Empty))).find?
        (fun rc => decide ((topEval ((Entity.Computer, Entity.Human, Entity.Computer),
                                     (Entity.Human, Entity.Computer, Entity.Human),
                                     (Entity.Computer, Entity.Human, Entity.Empty)) rc).1
          = maxTopScore ((Entity.Computer, Entity.Human, Entity.Computer),
                         (Entity.Human, Entity.Computer, Entity.Human),
                         (Entity.Computer, Entity.Human, Entity.Empty))))
        = some (best_play ((Entity.Computer, Entity.Human, Entity.Computer),
                           (Entity.Human, Entity.Computer, Entity.Human),
                           (Entity.Computer, Entity.Human, Entity.Empty))) :=
  ⟨by decide, best_play_first_argmax _ (by decide)⟩

/-! ## Bridge between the structured and packed representations -/

theorem entCode_lt (e : Entity) : entCode e < 4 := by cases e <;> decide

theorem entCode_beq (a e : Entity) : (entCode a == entCode e) = decide (a = e) := by
  cases a <;> cases e <;> decide

theorem entCode_beq_zero (e : Entity) : (entCode e == 0) = decide (e = Entity.Empty) := by
  cases e <;> decide

theorem fNot_entCode (p : Entity) : fNot (entCode p) = entCode p.not := by
  cases p <;> decide

theorem encode_getCell (b : Board) (x y : Fin 3) :
    encode b / maskOf (x, y) % 4 = entCode (getCell b x y) := by
  obtain ⟨⟨e00, e01, e02⟩, ⟨e10, e11, e12⟩, ⟨e20, e21, e22⟩⟩ := b
  have h00 := entCode_lt e00
  have h01 := entCode_lt e01
  have h02 := entCode_lt e02
  have h10 := entCode_lt e10
  have h11 := entCode_lt e11
  have h12 := entCode_lt e12
  have h20 := entCode_lt e20
  have h21 := entCode_lt e21
  have h22 := entCode_lt e22
  fin_cases x <;> fin_cases y <;>
    simp only [encode, maskOf, getCell, rowGet] <;>
    norm_num <;>
    omega

theorem encode_set (b : Board) (x y : Fin 3) (e : Entity)
    (h : getCell b x y = Entity.Empty) :
    encode (setCell b x y e) = encode b + entCode e * maskOf (x, y) := by
  obtain ⟨⟨e00, e01, e02⟩, ⟨e10, e11, e12⟩, ⟨e20, e21, e22⟩⟩ := b
  fin_cases x <;> fin_cases y <;>
    (simp only [getCell, rowGet] at h) <;>
    simp only [encode, maskOf, getCell, rowGet, setCell, rowSet, h, entCode] <;>
    norm_num <;>
    omega

theorem encDigit00 (b : Board) : encode b % 4 = entCode (getCell b 0 0) := by
  have h := encode_getCell b 0 0
  rw [show maskOf (0, 0) = 1 from rfl, Nat.div_one] at h
  exact h

theorem encDigit01 (b : Board) : encode b / 4 % 4 = entCode (getCell b 0 1) := by
  have h := encode_getCell b 0 1
  rw [show maskOf (0, 1) = 4 from rfl] at h
  exact h

theorem encDigit02 (b : Board) : encode b / 16 % 4 = entCode (getCell b 0 2) := by
  have h := encode_getCell b 0 2
  rw [show maskOf (0, 2) = 16 from rfl] at h
  exact h

theorem encDigit10 (b : Board) : encode b / 64 % 4 = entCode (getCell b 1 0) := by
  have h := encode_getCell b 1 0
  rw [show maskOf (1, 0) = 64 from rfl] at h
  exact h

theorem encDigit11 (b : Board) : encode b / 256 % 4 = entCode (getCell b 1 1) := by
  have h := encode_getCell b 1 1
  rw [show maskOf (1, 1) = 256 from rfl] at h
  exact h

theorem encDigit12 (b : Board) : encode b / 1024 % 4 = entCode (getCell b 1 2) := by
  have h := encode_getCell b 1 2
  rw [show maskOf (1, 2) = 1024 from rfl] at h
  exact h

theorem encDigit20 (b : Board) : encode b / 4096 % 4 = entCode (getCell b 2 0) := by
  have h := encode_getCell b 2 0
  rw [show maskOf (2, 0) = 4096 from rfl] at h
  exact h

theorem encDigit21 (b : Board) : encode b / 16384 % 4 = entCode (getCell b 2 1) := by
  have h := encode_getCell b 2 1
  rw [show maskOf (2, 1) = 16384 from rfl] at h
  exact h

theorem encDigit22 (b : Board) : encode b / 65536 % 4 = entCode (getCell b 2 2) := by
  have h := encode_getCell b 2 2
  rw [show maskOf (2, 2) = 65536 from rfl] at h
  exact h

theorem entCode_bne_zero (e : Entity) : (entCode e != 0) = decide (e ≠ Entity.Empty) := by
  cases e <;> decide

theorem fIsWin_encode (e : Entity) (b : Board) :
    fIsWin (entCode e) (encode b) = cIsWinner e b := by
  unfold fIsWin cIsWinner
  rw [finRange3]
  simp only [List.any_cons, List.any_nil, List.all_cons, List.all_nil, Bool.or_false,
    Bool.and_true, revIdx0, revIdx1, revIdx2, Nat.div_one,
    encDigit00, encDigit01, encDigit02, encDigit10, encDigit11, encDigit12,
    encDigit20, encDigit21, encDigit22, entCode_beq]
  generalize decide (getCell b 0 0 = e) = a00
  generalize decide (getCell b 0 1 = e) = a01
  generalize decide (getCell b 0 2 = e) = a02
  generalize decide (getCell b 1 0 = e) = a10
  generalize decide (getCell b 1 1 = e) = a11
  generalize decide (getCell b 1 2 = e) = a12
  generalize decide (getCell b 2 0 = e) = a20
  generalize decide (getCell b 2 1 = e) = a21
  generalize decide (getCell b 2 2 = e) = a22
  revert a00 a01 a02 a10 a11 a12 a20 a21 a22
  decide

theorem fFull_encode (b : Board) : fFull (encode b) = boardFull b := by
  unfold fFull boardFull
  rw [finRange3]
  simp only [List.all_cons, List.all_nil, Bool.and_true, Nat.div_one,
    encDigit00, encDigit01, encDigit02, encDigit10, encDigit11, encDigit12,
    encDigit20, encDigit21, encDigit22, entCode_bne_zero]
  generalize decide (getCell b 0 0 ≠ Entity.Empty) = a00
  generalize decide (getCell b 0 1 ≠ Entity.Empty) = a01
  generalize decide (getCell b 0 2 ≠ Entity.Empty) = a02
  generalize decide (getCell b 1 0 ≠ Entity.Empty) = a10
  generalize decide (getCell b 1 1 ≠ Entity.Empty) = a11
  generalize decide (getCell b 1 2 ≠ Entity.Empty) = a12
  generalize decide (getCell b 2 0 ≠ Entity.Empty) = a20
  generalize decide (getCell b 2 1 ≠ Entity.Empty) = a21
  generalize decide (getCell b 2 2 ≠ Entity.Empty) = a22
  revert a00 a01 a02 a10 a11 a12 a20 a21 a22
  decide

theorem natBeq_eq_decide (a b : Nat) : (a == b) = decide (a = b) := by
  rw [Bool.eq_iff_iff]
  simp

theorem entCode_inj (a e : Entity) : entCode a = entCode e ↔ a = e := by
  cases a <;> cases e <;> decide

set_option maxHeartbeats 1000000 in
theorem fWinAt_iff (e : Entity) (b : Board) (x y : Fin 3) :
    fWinAt (entCode e) (encode b) (maskOf (x, y)) = true ↔ lineThroughAt b e x y := by
  rw [lineThroughAt_iff]
  fin_cases x <;> fin_cases y <;>
    simp +decide only [fWinAt, fLinesM, maskOf, List.any_cons, List.any_nil,
      List.mem_cons, List.not_mem_nil, natBeq_eq_decide,
      Nat.div_one, encDigit00, encDigit01, encDigit02, encDigit10, encDigit11,
      encDigit12, encDigit20, encDigit21, encDigit22, entCode_inj,
      Bool.or_eq_true, Bool.and_eq_true, decide_eq_true_eq,
      false_or, or_false, true_or, or_true, true_and, false_and, and_true, and_false] <;>
    tauto

theorem fWinAt_encode (e : Entity) (b : Board) (x y : Fin 3) :
    fWinAt (entCode e) (encode b) (maskOf (x, y)) = Game.is_winner b e x y := by
  rw [Bool.eq_iff_iff]
  exact (fWinAt_iff e b x y).trans (is_winner_iff b e x y).symm

theorem isScore_of_range (s : Int) (h1 : -1 ≤ s) (h2 : s ≤ 1) : isScore s := by
  unfold isScore intMin intMax
  omega

theorem sc_max (a b : Int) (ha : isScore a) (hb : isScore b) :
    sc (max a b) = max (sc a) (sc b) := by
  unfold isScore at ha hb
  rcases ha with rfl | rfl | rfl | rfl | rfl <;>
    rcases hb with rfl | rfl | rfl | rfl | rfl <;> decide

theorem sc_min (a b : Int) (ha : isScore a) (hb : isScore b) :
    sc (min a b) = min (sc a) (sc b) := by
  unfold isScore at ha hb
  rcases ha with rfl | rfl | rfl | rfl | rfl <;>
    rcases hb with rfl | rfl | rfl | rfl | rfl <;> decide

theorem sc_le (a b : Int) (ha : isScore a) (hb : isScore b) :
    (sc a ≤ sc b) ↔ a ≤ b := by
  unfold isScore at ha hb
  rcases ha with rfl | rfl | rfl | rfl | rfl <;>
    rcases hb with rfl | rfl | rfl | rfl | rfl <;> decide

theorem sc_lt (a b : Int) (ha : isScore a) (hb : isScore b) :
    (sc a < sc b) ↔ a < b := by
  unfold isScore at ha hb
  rcases ha with rfl | rfl | rfl | rfl | rfl <;>
    rcases hb with rfl | rfl | rfl | rfl | rfl <;> decide

theorem isScore_max (a b : Int) (ha : isScore a) (hb : isScore b) : isScore (max a b) := by
  unfold isScore at *
  rcases ha with rfl | rfl | rfl | rfl | rfl <;>
    rcases hb with rfl | rfl | rfl | rfl | rfl <;> unfold intMin intMax at * <;> omega

theorem isScore_min (a b : Int) (ha : isScore a) (hb : isScore b) : isScore (min a b) := by
  unfold isScore at *
  rcases ha with rfl | rfl | rfl | rfl | rfl <;>
    rcases hb with rfl | rfl | rfl | rfl | rfl <;> unfold intMin intMax at * <;> omega

theorem isScore_intMin : isScore intMin := Or.inl rfl

theorem isScore_intMax : isScore intMax := Or.inr (Or.inr (Or.inr (Or.inr rfl)))

theorem sc_intMin : sc intMin = 0 := by decide

theorem sc_intMax : sc intMax = 4 := by decide

theorem fPows_eq : fPows = allCells.map maskOf := by decide

theorem sc_evaluate (b : Board) :
    (if fIsWin 1 (encode b) then (3 : Nat) else if fIsWin 2 (encode b) then 1 else 2)
      = sc (evaluate b) := by
  have h1 : fIsWin 1 (encode b) = cIsWinner Entity.Computer b := fIsWin_encode Entity.Computer b
  have h2 : fIsWin 2 (encode b) = cIsWinner Entity.Human b := fIsWin_encode Entity.Human b
  rw [h1, h2]
  unfold evaluate
  split_ifs <;> decide

theorem lMax_nil (frec : Nat → Nat → Nat → Nat → Nat → Nat × Nat) (fb m alpha beta d : Nat) :
    lMax frec fb [] m alpha beta d = (m, d) := rfl

theorem lMax_cons (frec : Nat → Nat → Nat → Nat → Nat → Nat × Nat)
    (fb k : Nat) (rest : List Nat) (m alpha beta d : Nat) :
    lMax frec fb (k :: rest) m alpha beta d =
      if fb / k % 4 == 0 then
        if beta ≤ max alpha (max m (frec (fb + k) 2 alpha beta (d + 1)).1) then
          (max m (frec (fb + k) 2 alpha beta (d + 1)).1, (frec (fb + k) 2 alpha beta (d + 1)).2)
        else
          lMax frec fb rest (max m (frec (fb + k) 2 alpha beta (d + 1)).1)
            (max alpha (max m (frec (fb + k) 2 alpha beta (d + 1)).1)) beta
            (frec (fb + k) 2 alpha beta (d + 1)).2
      else lMax frec fb rest m alpha beta d := by
  simp only [lMax, seqNat_eq]

theorem lMin_nil (frec : Nat → Nat → Nat → Nat → Nat → Nat × Nat) (fb m alpha beta d : Nat) :
    lMin frec fb [] m alpha beta d = (m, d) := rfl

theorem lMin_cons (frec : Nat → Nat → Nat → Nat → Nat → Nat × Nat)
    (fb k : Nat) (rest : List Nat) (m alpha beta d : Nat) :
    lMin frec fb (k :: rest) m alpha beta d =
      if fb / k % 4 == 0 then
        if min beta (min m (frec (fb + 2 * k) 1 alpha beta (d + 1)).1) ≤ alpha then
          (min m (frec (fb + 2 * k) 1 alpha beta (d + 1)).1,
           (frec (fb + 2 * k) 1 alpha beta (d + 1)).2)
        else
          lMin frec fb rest (min m (frec (fb + 2 * k) 1 alpha beta (d + 1)).1)
            alpha (min beta (min m (frec (fb + 2 * k) 1 alpha beta (d + 1)).1))
            (frec (fb + 2 * k) 1 alpha beta (d + 1)).2
      else lMin frec fb rest m alpha beta d := by
  simp only [lMin, seqNat_eq]

theorem fMinimax_zero (fb p alpha beta d : Nat) :
    fMinimax 0 fb p alpha beta d
      = (if fIsWin 1 fb then 3 else if fIsWin 2 fb then 1 else 2, d) := rfl

theorem fMinimax_succ (fuel : Nat) (fb p alpha beta d : Nat) :
    fMinimax (fuel + 1) fb p alpha beta d =
      if fIsWin 1 fb then (3, d)
      else if fIsWin 2 fb then (1, d)
      else if fFull fb then (2, d)
      else if p = 1 then lMax (fMinimax fuel) fb fPows 0 alpha beta d
      else lMin (fMinimax fuel) fb fPows 4 alpha beta d := rfl

theorem fBestPlayLoop_nil (fb s best : Nat) : fBestPlayLoop fb [] s best = best := rfl

theorem fBestPlayLoop_cons (fb k : Nat) (rest : List Nat) (s best : Nat) :
    fBestPlayLoop fb (k :: rest) s best =
      if fb / k % 4 == 0 then
        if s < (fMinimax 9 (fb + k) 2 0 4 0).1 then
          fBestPlayLoop fb rest (fMinimax 9 (fb + k) 2 0 4 0).1 k
        else fBestPlayLoop fb rest s best
      else fBestPlayLoop fb rest s best := by
  simp only [fBestPlayLoop, seqNat_eq]

theorem fUpdate_eq (b s k : Nat) :
    fUpdate b s k =
      if 10 ≤ s && s < 30 then
        if b / k % 4 == 0 then
          if fWinAt (s % 10) (b + s % 10 * k) k then (b + s % 10 * k, 30 + s % 10)
          else if fFull (b + s % 10 * k) then (b + s % 10 * k, 40)
          else (b + s % 10 * k, 10 + fNot (s % 10))
        else (b, 20 + s % 10)
      else (b, s) := by
  simp only [fUpdate, seqNat_eq]

theorem encode_empty_test (b : Board) (rc : Fin 3 × Fin 3) :
    (encode b / maskOf rc % 4 == 0) = isEmptyCell b rc := by
  obtain ⟨x, y⟩ := rc
  rw [encode_getCell, entCode_beq_zero]
  rfl

theorem encode_setMove (b : Board) (i j : Fin 3) (hemp : getCell b i j = Entity.Empty) :
    encode (setMove b Entity.Computer i j) = encode b + maskOf (i, j) := by
  unfold setMove
  rw [encode_set b i j _ hemp]
  simp [entCode]

theorem lMax_bridge
    (mm : Board → Entity → Int → Int → Int → (Int × Int) × Board)
    (frec : Nat → Nat → Nat → Nat → Nat → Nat × Nat)
    (hbr : ∀ (b' : Board) (alpha beta : Int) (dn : Nat), isScore alpha → isScore beta →
      frec (encode b') 2 (sc alpha) (sc beta) dn
        = (sc (mm b' Entity.Human alpha beta (dn : Int)).1.1,
           ((mm b' Entity.Human alpha beta (dn : Int)).1.2).toNat)
      ∧ (mm b' Entity.Human alpha beta (dn : Int)).1.2
          = (((mm b' Entity.Human alpha beta (dn : Int)).1.2).toNat : Int))
    (hrange : ∀ b' p a bt d, -1 ≤ (mm b' p a bt d).1.1 ∧ (mm b' p a bt d).1.1 ≤ 1)
    (hres : ∀ b' p a bt d, (mm b' p a bt d).2 = b') :
    ∀ (cells : List (Fin 3 × Fin 3)) (b : Board) (m alpha beta : Int) (dn : Nat),
      isScore m → isScore alpha → isScore beta →
      lMax frec (encode b) (cells.map maskOf) (sc m) (sc alpha) (sc beta) dn
        = (sc ((minimaxLoop mm Entity.Computer (cells.filter (isEmptyCell b)) b
                m alpha beta (dn : Int)).1.1),
           ((minimaxLoop mm Entity.Computer (cells.filter (isEmptyCell b)) b
                m alpha beta (dn : Int)).1.2).toNat)
      ∧ (minimaxLoop mm Entity.Computer (cells.filter (isEmptyCell b)) b
            m alpha beta (dn : Int)).1.2
          = ((((minimaxLoop mm Entity.Computer (cells.filter (isEmptyCell b)) b
                m alpha beta (dn : Int)).1.2).toNat : Nat) : Int) := by
  intro cells
  induction cells with
  | nil =>
    intro b m alpha beta dn hm ha hb
    simp only [List.map_nil, List.filter_nil, lMax_nil, minimaxLoop]
    exact ⟨by rw [Int.toNat_natCast], by rw [Int.toNat_natCast]⟩
  | cons rc cells ih =>
    intro b m alpha beta dn hm ha hb
    obtain ⟨i, j⟩ := rc
    rw [List.map_cons, lMax_cons]
    by_cases hemp : getCell b i j = Entity.Empty
    · have htest : (encode b / maskOf (i, j) % 4 == 0) = true := by
        rw [encode_empty_test]
        simp [isEmptyCell, hemp]
      have hfilter : ((i, j) :: cells).filter (isEmptyCell b)
          = (i, j) :: cells.filter (isEmptyCell b) :=
        List.filter_cons_of_pos (by simp [isEmptyCell, hemp])
      rw [htest, if_pos rfl, hfilter, minimaxLoop_cons_computer]
      rw [← encode_setMove b i j hemp]
      have hcast : ((dn : Int) + 1) = ((dn + 1 : Nat) : Int) := by push_cast; ring
      rw [hcast]
      obtain ⟨hv, hd⟩ := hbr (setMove b Entity.Computer i j) alpha beta (dn + 1) ha hb
      rw [hv]
      have hvrange := hrange (setMove b Entity.Computer i j) Entity.Human alpha beta
        ((dn + 1 : Nat) : Int)
      have hvs : isScore (mm (setMove b Entity.Computer i j) Entity.Human alpha beta
          ((dn + 1 : Nat) : Int)).1.1 := isScore_of_range _ hvrange.1 hvrange.2
      rw [show max (sc m) (sc (mm (setMove b Entity.Computer i j) Entity.Human alpha beta
            ((dn + 1 : Nat) : Int)).1.1)
          = sc (max m (mm (setMove b Entity.Computer i j) Entity.Human alpha beta
            ((dn + 1 : Nat) : Int)).1.1) from (sc_max _ _ hm hvs).symm]
      rw [show max (sc alpha) (sc (max m (mm (setMove b Entity.Computer i j) Entity.Human
            alpha beta ((dn + 1 : Nat) : Int)).1.1))
          = sc (max alpha (max m (mm (setMove b Entity.Computer i j) Entity.Human alpha beta
            ((dn + 1 : Nat) : Int)).1.1)) from
        (sc_max _ _ ha (isScore_max _ _ hm hvs)).symm]
      by_cases hbreak : beta ≤ max alpha (max m (mm (setMove b Entity.Computer i j)
          Entity.Human alpha beta ((dn + 1 : Nat) : Int)).1.1)
      · rw [if_pos ((sc_le _ _ hb (isScore_max _ _ ha (isScore_max _ _ hm hvs))).mpr hbreak),
          if_pos hbreak]
        exact ⟨rfl, hd⟩
      · rw [if_neg (fun hc => hbreak ((sc_le _ _ hb
            (isScore_max _ _ ha (isScore_max _ _ hm hvs))).mp hc)),
          if_neg hbreak]
        rw [hres, undo_set b Entity.Computer i j hemp, hd]
        exact ih b _ _ beta _ (isScore_max _ _ hm hvs)
          (isScore_max _ _ ha (isScore_max _ _ hm hvs)) hb
    · have htest : (encode b / maskOf (i, j) % 4 == 0) = false := by
        rw [encode_empty_test]
        simp [isEmptyCell, hemp]
      have hfilter : ((i, j) :: cells).filter (isEmptyCell b)
          = cells.filter (isEmptyCell b) :=
        List.filter_cons_of_neg (by simp [isEmptyCell, hemp])
      rw [htest, if_neg (by decide : ¬ false = true), hfilter]
      exact ih b m alpha beta dn hm ha hb

theorem encode_setMove_human (b : Board) (i j : Fin 3)
    (hemp : getCell b i j = Entity.Empty) :
    encode (setMove b Entity.Human i j) = encode b + 2 * maskOf (i, j) := by
  unfold setMove
  rw [encode_set b i j _ hemp]
  simp [entCode]

theorem lMin_bridge
    (mm : Board → Entity → Int → Int → Int → (Int × Int) × Board)
    (frec : Nat → Nat → Nat → Nat → Nat → Nat × Nat)
    (hbr : ∀ (b' : Board) (alpha beta : Int) (dn : Nat), isScore alpha → isScore beta →
      frec (encode b') 1 (sc alpha) (sc beta) dn
        = (sc (mm b' Entity.Computer alpha beta (dn : Int)).1.1,
           ((mm b' Entity.Computer alpha beta (dn : Int)).1.2).toNat)
      ∧ (mm b' Entity.Computer alpha beta (dn : Int)).1.2
          = (((mm b' Entity.Computer alpha beta (dn : Int)).1.2).toNat : Int))
    (hrange : ∀ b' p a bt d, -1 ≤ (mm b' p a bt d).1.1 ∧ (mm b' p a bt d).1.1 ≤ 1)
    (hres : ∀ b' p a bt d, (mm b' p a bt d).2 = b') :
    ∀ (cells : List (Fin 3 × Fin 3)) (b : Board) (m alpha beta : Int) (dn : Nat),
      isScore m → isScore alpha → isScore beta →
      lMin frec (encode b) (cells.map maskOf) (sc m) (sc alpha) (sc beta) dn
        = (sc ((minimaxLoop mm Entity.Human (cells.filter (isEmptyCell b)) b
                m alpha beta (dn : Int)).1.1),
           ((minimaxLoop mm Entity.Human (cells.filter (isEmptyCell b)) b
                m alpha beta (dn : Int)).1.2).toNat)
      ∧ (minimaxLoop mm Entity.Human (cells.filter (isEmptyCell b)) b
            m alpha beta (dn : Int)).1.2
          = ((((minimaxLoop mm Entity.Human (cells.filter (isEmptyCell b)) b
                m alpha beta (dn : Int)).1.2).toNat : Nat) : Int) := by
  intro cells
  induction cells with
  | nil =>
    intro b m alpha beta dn hm ha hb
    simp only [List.map_nil, List.filter_nil, lMin_nil, minimaxLoop]
    exact ⟨by rw [Int.toNat_natCast], by rw [Int.toNat_natCast]⟩
  | cons rc cells ih =>
    intro b m alpha beta dn hm ha hb
    obtain ⟨i, j⟩ := rc
    rw [List.map_cons, lMin_cons]
    by_cases hemp : getCell b i j = Entity.Empty
    · have htest : (encode b / maskOf (i, j) % 4 == 0) = true := by
        rw [encode_empty_test]
        simp [isEmptyCell, hemp]
      have hfilter : ((i, j) :: cells).filter (isEmptyCell b)
          = (i, j) :: cells.filter (isEmptyCell b) :=
        List.filter_cons_of_pos (by simp [isEmptyCell, hemp])
      rw [htest, if_pos rfl, hfilter, minimaxLoop_cons_human]
      rw [← encode_setMove_human b i j hemp]
      have hcast : ((dn : Int) + 1) = ((dn + 1 : Nat) : Int) := by push_cast; ring
      rw [hcast]
      obtain ⟨hv, hd⟩ := hbr (setMove b Entity.Human i j) alpha beta (dn + 1) ha hb
      rw [hv]
      have hvrange := hrange (setMove b Entity.Human i j) Entity.Computer alpha beta
        ((dn + 1 : Nat) : Int)
      have hvs : isScore (mm (setMove b Entity.Human i j) Entity.Computer alpha beta
          ((dn + 1 : Nat) : Int)).1.1 := isScore_of_range _ hvrange.1 hvrange.2
      rw [show min (sc m) (sc (mm (setMove b Entity.Human i j) Entity.Computer alpha beta
            ((dn + 1 : Nat) : Int)).1.1)
          = sc (min m (mm (setMove b Entity.Human i j) Entity.Computer alpha beta
            ((dn + 1 : Nat) : Int)).1.1) from (sc_min _ _ hm hvs).symm]
      rw [show min (sc beta) (sc (min m (mm (setMove b Entity.Human i j) Entity.Computer
            alpha beta ((dn + 1 : Nat) : Int)).1.1))
          = sc (min beta (min m (mm (setMove b Entity.Human i j) Entity.Computer alpha beta
            ((dn + 1 : Nat) : Int)).1.1)) from
        (sc_min _ _ hb (isScore_min _ _ hm hvs)).symm]
      by_cases hbreak : min beta (min m (mm (setMove b Entity.Human i j)
          Entity.Computer alpha beta ((dn + 1 : Nat) : Int)).1.1) ≤ alpha
      · rw [if_pos ((sc_le _ _ (isScore_min _ _ hb (isScore_min _ _ hm hvs)) ha).mpr hbreak),
          if_pos hbreak]
        exact ⟨rfl, hd⟩
      · rw [if_neg (fun hc => hbreak ((sc_le _ _
            (isScore_min _ _ hb (isScore_min _ _ hm hvs)) ha).mp hc)),
          if_neg hbreak]
        rw [hres, undo_set b Entity.Human i j hemp, hd]
        exact ih b _ alpha _ _ (isScore_min _ _ hm hvs) ha
          (isScore_min _ _ hb (isScore_min _ _ hm hvs))
    · have htest : (encode b / maskOf (i, j) % 4 == 0) = false := by
        rw [encode_empty_test]
        simp [isEmptyCell, hemp]
      have hfilter : ((i, j) :: cells).filter (isEmptyCell b)
          = cells.filter (isEmptyCell b) :=
        List.filter_cons_of_neg (by simp [isEmptyCell, hemp])
      rw [htest, if_neg (by decide : ¬ false = true), hfilter]
      exact ih b m alpha beta dn hm ha hb

theorem minimax_zero_eq (b : Board) (p : Entity) (a bt d : Int) :
    minimax 0 b p a bt d = ((evaluate b, d), b) := by
  simp only [minimax]
  split
  · rfl
  · rfl

theorem minimax_bridge :
    ∀ (fuel : Nat) (b : Board) (p : Entity) (alpha beta : Int) (dn : Nat),
      p ≠ Entity.Empty → isScore alpha → isScore beta →
      fMinimax fuel (encode b) (entCode p) (sc alpha) (sc beta) dn
        = (sc ((minimax fuel b p alpha beta (dn : Int)).1.1),
           ((minimax fuel b p alpha beta (dn : Int)).1.2).toNat)
      ∧ (minimax fuel b p alpha beta (dn : Int)).1.2
          = (((minimax fuel b p alpha beta (dn : Int)).1.2).toNat : Int) := by
  intro fuel
  induction fuel with
  | zero =>
    intro b p alpha beta dn _ _ _
    rw [minimax_zero_eq, fMinimax_zero]
    refine ⟨?_, by rw [Int.toNat_natCast]⟩
    rw [Int.toNat_natCast, sc_evaluate]
  | succ fuel ih =>
    intro b p alpha beta dn hp ha hb
    have h1 : fIsWin 1 (encode b) = cIsWinner Entity.Computer b :=
      fIsWin_encode Entity.Computer b
    have h2 : fIsWin 2 (encode b) = cIsWinner Entity.Human b :=
      fIsWin_encode Entity.Human b
    have hF : fFull (encode b) = boardFull b := fFull_encode b
    rw [fMinimax_succ, h1, h2, hF]
    cases p with
    | Empty => exact absurd rfl hp
    | Computer =>
      simp only [minimax]
      by_cases hC : cIsWinner Entity.Computer b = true
      · rw [if_pos hC, if_pos (by simp [hC, Entity.not] : (cIsWinner Entity.Computer b
            || cIsWinner Entity.Computer.not b || boardFull b) = true)]
        refine ⟨?_, by rw [Int.toNat_natCast]⟩
        have he := sc_evaluate b
        rw [h1, if_pos hC] at he
        rw [Int.toNat_natCast, ← he]
      · rw [if_neg (by simp [hC])]
        by_cases hH : cIsWinner Entity.Human b = true
        · rw [if_pos hH, if_pos (by simp [hC, hH, Entity.not] : (cIsWinner Entity.Computer b
              || cIsWinner Entity.Computer.not b || boardFull b) = true)]
          refine ⟨?_, by rw [Int.toNat_natCast]⟩
          have he := sc_evaluate b
          rw [h1, if_neg (by simp [hC]), h2, if_pos hH] at he
          rw [Int.toNat_natCast, ← he]
        · rw [if_neg (by simp [hH])]
          by_cases hfull : boardFull b = true
          · rw [if_pos hfull, if_pos (by simp [hC, hH, hfull, Entity.not] :
                (cIsWinner Entity.Computer b || cIsWinner Entity.Computer.not b
                  || boardFull b) = true)]
            refine ⟨?_, by rw [Int.toNat_natCast]⟩
            have he := sc_evaluate b
            rw [h1, if_neg (by simp [hC]), h2, if_neg (by simp [hH])] at he
            rw [Int.toNat_natCast, ← he]
          · rw [if_neg (by simp [hfull]), if_neg (by simp [hC, hH, hfull, Entity.not] :
                ¬ (cIsWinner Entity.Computer b || cIsWinner Entity.Computer.not b
                  || boardFull b) = true)]
            rw [if_pos (by decide : entCode Entity.Computer = 1), if_true]
            have hmain := lMax_bridge (fun b p a bt d => minimax fuel b p a bt d)
              (fMinimax fuel)
              (fun b' a' b'' dn' ha' hb' => ih b' Entity.Human a' b'' dn' (by decide) ha' hb')
              (fun b' p' a' bt' d' => minimax_score_range fuel b' p' a' bt' d')
              (fun b' p' a' bt' d' => minimax_board fuel b' p' a' bt' d')
              allCells b intMin alpha beta dn isScore_intMin ha hb
            rw [sc_intMin] at hmain
            rw [fPows_eq, actions_eq_filter]
            exact hmain
    | Human =>
      simp only [minimax]
      by_cases hC : cIsWinner Entity.Computer b = true
      · rw [if_pos hC, if_pos (by simp [hC, Entity.not] : (cIsWinner Entity.Human b
            || cIsWinner Entity.Human.not b || boardFull b) = true)]
        refine ⟨?_, by rw [Int.toNat_natCast]⟩
        have he := sc_evaluate b
        rw [h1, if_pos hC] at he
        rw [Int.toNat_natCast, ← he]
      · rw [if_neg (by simp [hC])]
        by_cases hH : cIsWinner Entity.Human b = true
        · rw [if_pos hH, if_pos (by simp [hC, hH, Entity.not] : (cIsWinner Entity.Human b
              || cIsWinner Entity.Human.not b || boardFull b) = true)]
          refine ⟨?_, by rw [Int.toNat_natCast]⟩
          have he := sc_evaluate b
          rw [h1, if_neg (by simp [hC]), h2, if_pos hH] at he
          rw [Int.toNat_natCast, ← he]
        · rw [if_neg (by simp [hH])]
          by_cases hfull : boardFull b = true
          · rw [if_pos hfull, if_pos (by simp [hC, hH, hfull, Entity.not] :
                (cIsWinner Entity.Human b || cIsWinner Entity.Human.not b
                  || boardFull b) = true)]
            refine ⟨?_, by rw [Int.toNat_natCast]⟩
            have he := sc_evaluate b
            rw [h1, if_neg (by simp [hC]), h2, if_neg (by simp [hH])] at he
            rw [Int.toNat_natCast, ← he]
          · rw [if_neg (by simp [hfull]), if_neg (by simp [hC, hH, hfull, Entity.not] :
                ¬ (cIsWinner Entity.Human b || cIsWinner Entity.Human.not b
                  || boardFull b) = true)]
            rw [if_neg (by decide : ¬ entCode Entity.Human = 1),
              if_neg (by decide : ¬ Entity.Human = Entity.Computer)]
            have hmain := lMin_bridge (fun b p a bt d => minimax fuel b p a bt d)
              (fMinimax fuel)
              (fun b' a' b'' dn' ha' hb' => ih b' Entity.Computer a' b'' dn' (by decide) ha' hb')
              (fun b' p' a' bt' d' => minimax_score_range fuel b' p' a' bt' d')
              (fun b' p' a' bt' d' => minimax_board fuel b' p' a' bt' d')
              allCells b intMax alpha beta dn isScore_intMax ha hb
            rw [sc_intMax] at hmain
            rw [fPows_eq, actions_eq_filter]
            exact hmain

/-! ## Bridging `best_play`, `Game.update` and `neverLoses` to the packed layer -/

theorem fBestPlayLoop_bridge :
    ∀ (cells : List (Fin 3 × Fin 3)) (b : Board) (s : Int) (best : Fin 3 × Fin 3),
      isScore s →
      fBestPlayLoop (encode b) (cells.map maskOf) (sc s) (maskOf best)
        = maskOf (bestPlayLoop cells b s best).1 := by
  intro cells
  induction cells with
  | nil => intro b s best _; rfl
  | cons rc rest ih =>
    intro b s best hs
    obtain ⟨i, j⟩ := rc
    rw [List.map_cons, fBestPlayLoop_cons]
    by_cases hemp : getCell b i j = Entity.Empty
    · have htest : (encode b / maskOf (i, j) % 4 == 0) = true := by
        rw [encode_empty_test]
        simp [isEmptyCell, hemp]
      rw [htest, if_pos rfl]
      obtain ⟨hv, _⟩ := minimax_bridge 9 (setMove b Entity.Computer i j) Entity.Human
        intMin intMax 0 (by decide) isScore_intMin isScore_intMax
      rw [sc_intMin, sc_intMax, Nat.cast_zero,
        show entCode Entity.Human = 2 from rfl,
        encode_setMove b i j hemp] at hv
      have hv1 : (fMinimax 9 (encode b + maskOf (i, j)) 2 0 4 0).1
          = sc (minimax 9 (setMove b Entity.Computer i j) Entity.Human
              intMin intMax 0).1.1 := by
        rw [hv]
      rw [hv1]
      have hscore : isScore (minimax 9 (setMove b Entity.Computer i j) Entity.Human
          intMin intMax 0).1.1 :=
        isScore_of_range _ (minimax_score_range 9 _ _ _ _ _).1
          (minimax_score_range 9 _ _ _ _ _).2
      simp only [bestPlayLoop]
      rw [minimax_board, undo_set b Entity.Computer i j hemp, if_pos hemp]
      by_cases hlt : s < (minimax 9 (setMove b Entity.Computer i j) Entity.Human
          intMin intMax 0).1.1
      · rw [if_pos ((sc_lt s _ hs hscore).mpr hlt), if_pos hlt]
        exact ih b _ (i, j) hscore
      · rw [if_neg (fun hc => hlt ((sc_lt s _ hs hscore).mp hc)), if_neg hlt]
        exact ih b s best hs
    · have htest : (encode b / maskOf (i, j) % 4 == 0) = false := by
        rw [encode_empty_test]
        simp [isEmptyCell, hemp]
      rw [htest, if_neg (by decide : ¬ false = true)]
      simp only [bestPlayLoop]
      rw [if_neg hemp]
      exact ih b s best hs

theorem bestPlayLoop_filter (b : Board) :
    ∀ (cells : List (Fin 3 × Fin 3)) (s : Int) (best : Fin 3 × Fin 3),
      bestPlayLoop (cells.filter (isEmptyCell b)) b s best
        = bestPlayLoop cells b s best := by
  intro cells
  induction cells with
  | nil => intro s best; rfl
  | cons rc rest ih =>
    intro s best
    obtain ⟨i, j⟩ := rc
    by_cases hemp : getCell b i j = Entity.Empty
    · rw [List.filter_cons_of_pos (by simp [isEmptyCell, hemp])]
      simp only [bestPlayLoop]
      rw [minimax_board, undo_set b Entity.Computer i j hemp]
      by_cases hlt : s < (minimax 9 (setMove b Entity.Computer i j) Entity.Human
          intMin intMax 0).1.1
      · rw [if_pos hemp, if_pos hemp, if_pos hlt, if_pos hlt]
        exact ih _ (i, j)
      · rw [if_pos hemp, if_pos hemp, if_neg hlt, if_neg hlt]
        exact ih s best
    · rw [List.filter_cons_of_neg (by simp [isEmptyCell, hemp])]
      simp only [bestPlayLoop]
      rw [if_neg hemp]
      exact ih s best

theorem fBestPlay_bridge (b : Board) : fBestPlay (encode b) = maskOf (best_play b) := by
  unfold fBestPlay best_play
  rw [fPows_eq, ← sc_intMin,
    show (1 : Nat) = maskOf ((0 : Fin 3), (0 : Fin 3)) from rfl,
    fBestPlayLoop_bridge allCells b intMin (0, 0) isScore_intMin,
    ← bestPlayLoop_filter b allCells intMin (0, 0), ← actions_eq_filter]

theorem fUpdate_core (b : Board) (p : Entity) (i j : Fin 3) (s : Nat)
    (h10 : 10 ≤ s) (h30 : s < 30) (hp : s % 10 = entCode p) :
    fUpdate (encode b) s (maskOf (i, j))
      = (encode (Game.applyMove ⟨b, GameState.Playing p⟩ p i j).board,
         sCode (Game.applyMove ⟨b, GameState.Playing p⟩ p i j).state) := by
  rw [fUpdate_eq]
  rw [if_pos (by simp [h10, h30] : (10 ≤ s && s < 30) = true)]
  rw [hp]
  have hA : Game.applyMove ⟨b, GameState.Playing p⟩ p i j
      = (if getCell b i j = Entity.Empty then
          if Game.is_winner (setCell b i j p) p i j then
            (⟨setCell b i j p, GameState.Win p⟩ : Game)
          else if boardFull (setCell b i j p) then ⟨setCell b i j p, GameState.Draw⟩
          else ⟨setCell b i j p, GameState.Playing p.not⟩
        else ⟨b, GameState.Repeat p⟩) := rfl
  rw [hA]
  by_cases hemp : getCell b i j = Entity.Empty
  · have htest : (encode b / maskOf (i, j) % 4 == 0) = true := by
      rw [encode_empty_test]
      simp [isEmptyCell, hemp]
    rw [htest, if_pos rfl, if_pos hemp,
      ← encode_set b i j p hemp, fWinAt_encode, fFull_encode, fNot_entCode]
    by_cases hw : Game.is_winner (setCell b i j p) p i j = true
    · rw [if_pos hw, if_pos hw]
      rfl
    · rw [if_neg hw, if_neg hw]
      by_cases hfull : boardFull (setCell b i j p) = true
      · rw [if_pos hfull, if_pos hfull]
        rfl
      · rw [if_neg hfull, if_neg hfull]
        rfl
  · have htest : (encode b / maskOf (i, j) % 4 == 0) = false := by
      rw [encode_empty_test]
      simp [isEmptyCell, hemp]
    rw [htest, if_neg (by decide : ¬ false = true), if_neg hemp]
    rfl

theorem fUpdate_bridge (g : Game) (rc : Fin 3 × Fin 3) :
    fUpdate (encode g.board) (sCode g.state) (maskOf rc)
      = (encode (g.update rc.1 rc.2).board, sCode (g.update rc.1 rc.2).state) := by
  obtain ⟨b, st⟩ := g
  obtain ⟨i, j⟩ := rc
  cases st with
  | Ready => rfl
  | Draw => rfl
  | Win p => cases p <;> rfl
  | Playing p =>
    rw [show Game.update ⟨b, GameState.Playing p⟩ i j
        = Game.applyMove ⟨b, GameState.Playing p⟩ p i j from rfl]
    exact fUpdate_core b p i j (10 + entCode p) (by omega)
      (by have := entCode_lt p; omega) (by have := entCode_lt p; omega)
  | Repeat p =>
    rw [show Game.update ⟨b, GameState.Repeat p⟩ i j
        = Game.applyMove ⟨b, GameState.Playing p⟩ p i j from rfl]
    exact fUpdate_core b p i j (20 + entCode p) (by omega)
      (by have := entCode_lt p; omega) (by have := entCode_lt p; omega)

theorem all_skip_filter (b : Board) (ff : Nat → Bool) (f : (Fin 3 × Fin 3) → Bool)
    (hf : ∀ rc, isEmptyCell b rc = true → ff (maskOf rc) = f rc) :
    ∀ cells : List (Fin 3 × Fin 3),
      ((cells.map maskOf).all fun k => if encode b / k % 4 == 0 then ff k else true)
        = (cells.filter (isEmptyCell b)).all f := by
  intro cells
  induction cells with
  | nil => rfl
  | cons rc rest ih =>
    rw [List.map_cons, List.all_cons]
    by_cases hemp : isEmptyCell b rc = true
    · rw [List.filter_cons_of_pos hemp, List.all_cons]
      rw [show (encode b / maskOf rc % 4 == 0) = true from by
        rw [encode_empty_test]; exact hemp]
      rw [if_pos rfl, hf rc hemp, ih]
    · have hfalse : isEmptyCell b rc = false := by
        cases h : isEmptyCell b rc
        · rfl
        · exact absurd h hemp
      rw [List.filter_cons_of_neg hemp]
      rw [show (encode b / maskOf rc % 4 == 0) = false from by
        rw [encode_empty_test]; exact hfalse]
      rw [if_neg (by decide : ¬ false = true), Bool.true_and, ih]

theorem fNeverLoses_human_step (fuel : Nat) (b : Board) (st : GameState)
    (ih : ∀ g : Game, fNeverLoses fuel (encode g.board) (sCode g.state) = neverLoses fuel g) :
    (fPows.all fun k =>
      if encode b / k % 4 == 0 then
        seqNat (fUpdate (encode b) (sCode st) k).1 fun b2 =>
        seqNat (fUpdate (encode b) (sCode st) k).2 fun s2 => fNeverLoses fuel b2 s2
      else true)
    = (actions b).all fun rc => neverLoses fuel (Game.update ⟨b, st⟩ rc.1 rc.2) := by
  have hf : ∀ rc : Fin 3 × Fin 3, isEmptyCell b rc = true →
      (seqNat (fUpdate (encode b) (sCode st) (maskOf rc)).1 fun b2 =>
       seqNat (fUpdate (encode b) (sCode st) (maskOf rc)).2 fun s2 =>
       fNeverLoses fuel b2 s2)
      = neverLoses fuel (Game.update ⟨b, st⟩ rc.1 rc.2) := by
    intro rc _
    have hup : fUpdate (encode b) (sCode st) (maskOf rc)
        = (encode ((⟨b, st⟩ : Game).update rc.1 rc.2).board,
           sCode ((⟨b, st⟩ : Game).update rc.1 rc.2).state) := fUpdate_bridge ⟨b, st⟩ rc
    rw [seqNat_eq, seqNat_eq, hup]
    exact ih ((⟨b, st⟩ : Game).update rc.1 rc.2)
  rw [fPows_eq, all_skip_filter b
    (fun k => seqNat (fUpdate (encode b) (sCode st) k).1 fun b2 =>
      seqNat (fUpdate (encode b) (sCode st) k).2 fun s2 => fNeverLoses fuel b2 s2)
    (fun rc => neverLoses fuel (Game.update ⟨b, st⟩ rc.1 rc.2)) hf allCells,
    ← actions_eq_filter]

theorem fNeverLoses_bridge :
    ∀ (fuel : Nat) (g : Game),
      fNeverLoses fuel (encode g.board) (sCode g.state) = neverLoses fuel g := by
  intro fuel
  induction fuel with
  | zero => intro g; rfl
  | succ fuel ih =>
    intro g
    obtain ⟨b, st⟩ := g
    cases st with
    | Ready => rfl
    | Draw => rfl
    | Win p => cases p <;> rfl
    | Playing p =>
      cases p with
      | Computer =>
        have h1 : fNeverLoses (fuel + 1) (encode b)
              (sCode (GameState.Playing Entity.Computer))
            = (seqNat (fBestPlay (encode b)) fun k =>
                seqNat (fUpdate (encode b)
                    (sCode (GameState.Playing Entity.Computer)) k).1 fun b2 =>
                seqNat (fUpdate (encode b)
                    (sCode (GameState.Playing Entity.Computer)) k).2 fun s2 =>
                fNeverLoses fuel b2 s2) := rfl
        have hup : fUpdate (encode b) (sCode (GameState.Playing Entity.Computer))
              (maskOf (best_play b))
            = (encode ((⟨b, GameState.Playing Entity.Computer⟩ : Game).update
                  (best_play b).1 (best_play b).2).board,
               sCode ((⟨b, GameState.Playing Entity.Computer⟩ : Game).update
                  (best_play b).1 (best_play b).2).state) :=
          fUpdate_bridge ⟨b, GameState.Playing Entity.Computer⟩ (best_play b)
        rw [h1, seqNat_eq, fBestPlay_bridge b, seqNat_eq, seqNat_eq, hup]
        exact ih ((⟨b, GameState.Playing Entity.Computer⟩ : Game).update
          (best_play b).1 (best_play b).2)
      | Human =>
        have h1 : fNeverLoses (fuel + 1) (encode b)
              (sCode (GameState.Playing Entity.Human))
            = (fPows.all fun k =>
                if encode b / k % 4 == 0 then
                  seqNat (fUpdate (encode b)
                      (sCode (GameState.Playing Entity.Human)) k).1 fun b2 =>
                  seqNat (fUpdate (encode b)
                      (sCode (GameState.Playing Entity.Human)) k).2 fun s2 =>
                  fNeverLoses fuel b2 s2
                else true) := rfl
        rw [h1, fNeverLoses_human_step fuel b (GameState.Playing Entity.Human) ih]
        rfl
      | Empty =>
        have h1 : fNeverLoses (fuel + 1) (encode b)
              (sCode (GameState.Playing Entity.Empty))
            = (fPows.all fun k =>
                if encode b / k % 4 == 0 then
                  seqNat (fUpdate (encode b)
                      (sCode (GameState.Playing Entity.Empty)) k).1 fun b2 =>
                  seqNat (fUpdate (encode b)
                      (sCode (GameState.Playing Entity.Empty)) k).2 fun s2 =>
                  fNeverLoses fuel b2 s2
                else true) := rfl
        rw [h1, fNeverLoses_human_step fuel b (GameState.Playing Entity.Empty) ih]
        rfl
    | Repeat p =>
      cases p with
      | Computer =>
        have h1 : fNeverLoses (fuel + 1) (encode b)
              (sCode (GameState.Repeat Entity.Computer))
            = (seqNat (fBestPlay (encode b)) fun k =>
                seqNat (fUpdate (encode b)
                    (sCode (GameState.Repeat Entity.Computer)) k).1 fun b2 =>
                seqNat (fUpdate (encode b)
                    (sCode (GameState.Repeat Entity.Computer)) k).2 fun s2 =>
                fNeverLoses fuel b2 s2) := rfl
        have hup : fUpdate (encode b) (sCode (GameState.Repeat Entity.Computer))
              (maskOf (best_play b))
            = (encode ((⟨b, GameState.Repeat Entity.Computer⟩ : Game).update
                  (best_play b).1 (best_play b).2).board,
               sCode ((⟨b, GameState.Repeat Entity.Computer⟩ : Game).update
                  (best_play b).1 (best_play b).2).state) :=
          fUpdate_bridge ⟨b, GameState.Repeat Entity.Computer⟩ (best_play b)
        rw [h1, seqNat_eq, fBestPlay_bridge b, seqNat_eq, seqNat_eq, hup]
        exact ih ((⟨b, GameState.Repeat Entity.Computer⟩ : Game).update
          (best_play b).1 (best_play b).2)
      | Human =>
        have h1 : fNeverLoses (fuel + 1) (encode b)
              (sCode (GameState.Repeat Entity.Human))
            = (fPows.all fun k =>
                if encode b / k % 4 == 0 then
                  seqNat (fUpdate (encode b)
                      (sCode (GameState.Repeat Entity.Human)) k).1 fun b2 =>
                  seqNat (fUpdate (encode b)
                      (sCode (GameState.Repeat Entity.Human)) k).2 fun s2 =>
                  fNeverLoses fuel b2 s2
                else true) := rfl
        rw [h1, fNeverLoses_human_step fuel b (GameState.Repeat Entity.Human) ih]
        rfl
      | Empty =>
        have h1 : fNeverLoses (fuel + 1) (encode b)
              (sCode (GameState.Repeat Entity.Empty))
            = (fPows.all fun k =>
                if encode b / k % 4 == 0 then
                  seqNat (fUpdate (encode b)
                      (sCode (GameState.Repeat Entity.Empty)) k).1 fun b2 =>
                  seqNat (fUpdate (encode b)
                      (sCode (GameState.Repeat Entity.Empty)) k).2 fun s2 =>
                  fNeverLoses fuel b2 s2
                else true) := rfl
        rw [h1, fNeverLoses_human_step fuel b (GameState.Repeat Entity.Empty) ih]
        rfl

/-! ### Kernel evaluation of the game-tree check

The full check `fNeverLoses 10 0 11` is too large for a single kernel
evaluation, so it is split along the first two plies: one lemma per
top-level minimax search of the Computer's first move, and one lemma per
human reply to that move; the pieces are then reassembled by rewriting. -/

set_option maxRecDepth 100000 in
set_option maxHeartbeats 16000000 in
theorem topScore1 : (fMinimax 9 (0 + 1) 2 0 4 0).1 = 2 := by decide

set_option maxRecDepth 100000 in
set_option maxHeartbeats 16000000 in
theorem topScore4 : (fMinimax 9 (0 + 4) 2 0 4 0).1 = 2 := by decide

set_option maxRecDepth 100000 in
set_option maxHeartbeats 16000000 in
theorem topScore16 : (fMinimax 9 (0 + 16) 2 0 4 0).1 = 2 := by decide

set_option maxRecDepth 100000 in
set_option maxHeartbeats 16000000 in
theorem topScore64 : (fMinimax 9 (0 + 64) 2 0 4 0).1 = 2 := by decide

set_option maxRecDepth 100000 in
set_option maxHeartbeats 16000000 in
theorem topScore256 : (fMinimax 9 (0 + 256) 2 0 4 0).1 = 2 := by decide

set_option maxRecDepth 100000 in
set_option maxHeartbeats 16000000 in
theorem topScore1024 : (fMinimax 9 (0 + 1024) 2 0 4 0).1 = 2 := by decide

set_option maxRecDepth 100000 in
set_option maxHeartbeats 16000000 in
theorem topScore4096 : (fMinimax 9 (0 + 4096) 2 0 4 0).1 = 2 := by decide

set_option maxRecDepth 100000 in
set_option maxHeartbeats 16000000 in
theorem topScore16384 : (fMinimax 9 (0 + 16384) 2 0 4 0).1 = 2 := by decide

set_option maxRecDepth 100000 in
set_option maxHeartbeats 16000000 in
theorem topScore65536 : (fMinimax 9 (0 + 65536) 2 0 4 0).1 = 2 := by decide

/-- The packed `best_play` of the empty board picks the first cell: every
top-level action of the empty board scores a draw, and only the first
strictly improves on the initial best score. -/
theorem fBestPlay_empty : fBestPlay 0 = 1 := by
  rw [show fBestPlay 0 = fBestPlayLoop 0 fPows 0 1 from rfl,
    show fPows = [1, 4, 16, 64, 256, 1024, 4096, 16384, 65536] from rfl]
  rw [fBestPlayLoop_cons, topScore1,
    if_pos (by decide : ((0 : Nat) / 1 % 4 == 0) = true),
    if_pos (by decide : (0 : Nat) < 2)]
  rw [fBestPlayLoop_cons, topScore4,
    if_pos (by decide : ((0 : Nat) / 4 % 4 == 0) = true),
    if_neg (by decide : ¬ (2 : Nat) < 2)]
  rw [fBestPlayLoop_cons, topScore16,
    if_pos (by decide : ((0 : Nat) / 16 % 4 == 0) = true),
    if_neg (by decide : ¬ (2 : Nat) < 2)]
  rw [fBestPlayLoop_cons, topScore64,
    if_pos (by decide : ((0 : Nat) / 64 % 4 == 0) = true),
    if_neg (by decide : ¬ (2 : Nat) < 2)]
  rw [fBestPlayLoop_cons, topScore256,
    if_pos (by decide : ((0 : Nat) / 256 % 4 == 0) = true),
    if_neg (by decide : ¬ (2 : Nat) < 2)]
  rw [fBestPlayLoop_cons, topScore1024,
    if_pos (by decide : ((0 : Nat) / 1024 % 4 == 0) = true),
    if_neg (by decide : ¬ (2 : Nat) < 2)]
  rw [fBestPlayLoop_cons, topScore4096,
    if_pos (by decide : ((0 : Nat) / 4096 % 4 == 0) = true),
    if_neg (by decide : ¬ (2 : Nat) < 2)]
  rw [fBestPlayLoop_cons, topScore16384,
    if_pos (by decide : ((0 : Nat) / 16384 % 4 == 0) = true),
    if_neg (by decide : ¬ (2 : Nat) < 2)]
  rw [fBestPlayLoop_cons, topScore65536,
    if_pos (by decide : ((0 : Nat) / 65536 % 4 == 0) = true),
    if_neg (by decide : ¬ (2 : Nat) < 2)]
  rfl

set_option maxRecDepth 100000 in
set_option maxHeartbeats 16000000 in
theorem subtree4 : fNeverLoses 8 9 11 = true := by decide

set_option maxRecDepth 100000 in
set_option maxHeartbeats 16000000 in
theorem subtree16 : fNeverLoses 8 33 11 = true := by decide

set_option maxRecDepth 100000 in
set_option maxHeartbeats 16000000 in
theorem subtree64 : fNeverLoses 8 129 11 = true := by decide

set_option maxRecDepth 100000 in
set_option maxHeartbeats 16000000 in
theorem subtree256 : fNeverLoses 8 513 11 = true := by decide

set_option maxRecDepth 100000 in
set_option maxHeartbeats 16000000 in
theorem subtree1024 : fNeverLoses 8 2049 11 = true := by decide

set_option maxRecDepth 100000 in
set_option maxHeartbeats 16000000 in
theorem subtree4096 : fNeverLoses 8 8193 11 = true := by decide

set_option maxRecDepth 100000 in
set_option maxHeartbeats 16000000 in
theorem subtree16384 : fNeverLoses 8 32769 11 = true := by decide

set_option maxRecDepth 100000 in
set_option maxHeartbeats 16000000 in
theorem subtree65536 : fNeverLoses 8 131073 11 = true := by decide

/-- After the Computer's opening move on cell `(0, 0)` (board code 1, Human
to move), every human reply leads to a subtree the Computer does not lose. -/
theorem fNeverLoses_after_first : fNeverLoses 9 1 12 = true := by
  have h1 : fNeverLoses 9 1 12
      = (true && (fNeverLoses 8 9 11 && (fNeverLoses 8 33 11 && (fNeverLoses 8 129 11 &&
          (fNeverLoses 8 513 11 && (fNeverLoses 8 2049 11 && (fNeverLoses 8 8193 11 &&
          (fNeverLoses 8 32769 11 && (fNeverLoses 8 131073 11 && true))))))))) := rfl
  rw [h1, subtree4, subtree16, subtree64, subtree256, subtree1024, subtree4096,
    subtree16384, subtree65536]
  rfl

/-- The packed no-loss check succeeds from the empty board with the
Computer to move. -/
theorem fNeverLoses_empty : fNeverLoses 10 0 11 = true := by
  have h0 : ∀ b : Board, fNeverLoses 10 (encode b) 11
      = (seqNat (fBestPlay (encode b)) fun k =>
          seqNat (fUpdate (encode b) 11 k).1 fun b2 =>
          seqNat (fUpdate (encode b) 11 k).2 fun s2 => fNeverLoses 9 b2 s2) :=
    fun _ => rfl
  have h1 := h0 emptyBoard
  rw [show encode emptyBoard = 0 from rfl] at h1
  have h2 : (seqNat (fBestPlay 0) fun k =>
        seqNat (fUpdate 0 11 k).1 fun b2 =>
        seqNat (fUpdate 0 11 k).2 fun s2 => fNeverLoses 9 b2 s2)
      = fNeverLoses 9 1 12 := by
    rw [fBestPlay_empty, seqNat_eq,
      show (fUpdate 0 11 1).1 = 1 from by decide,
      show (fUpdate 0 11 1).2 = 12 from by decide,
      seqNat_eq, seqNat_eq]
  exact h1.trans (h2.trans fNeverLoses_after_first)

/-- C1.  If the automated player moves first from an empty board and every
one of its moves is the coordinate returned by `best_play` on the current
board, then for every sequence of human replies the final phase is
`Win Computer` or `Draw`, never `Win Human`: the exhaustive game-tree
check `neverLoses` (which follows `best_play` on the Computer's turns,
branches over every empty cell on the Human's turns, and accepts only the
terminal states `Win Computer` and `Draw`) succeeds from the initial
position within fuel 10, which covers the at most nine accepted moves of
any play of the 3x3 board. -/
theorem computer_never_loses :
    neverLoses 10 ⟨emptyBoard, GameState.Playing Entity.Computer⟩ = true := by
  rw [← fNeverLoses_bridge 10 ⟨emptyBoard, GameState.Playing Entity.Computer⟩]
  exact fNeverLoses_empty
